import Mathlib

/-!
Shallow embedding of the Hack4Good README updater
(`scripts/update-readme.js`, full variant with seen-tracking, stats summary
and dry-run support).

Text is modelled as `List Char`.  JavaScript strings are UTF-16 sequences;
for the code points appearing in this program the `Char`-level view agrees
with it.  Fallible JavaScript operations (`Date#toISOString` on an invalid
date) are modelled with `Except`.  Machine `Date` values are carried as the
validated civil fields plus an exact `Int` epoch-millisecond value.
-/

set_option maxRecDepth 4000
set_option maxHeartbeats 4000000

namespace Hack4Good

/-- Program text: a JavaScript string as its list of characters. -/
abbrev Text := List Char

/-- Coerce a Lean string literal to program text. -/
def lit (s : String) : Text := s.toList

/-- The characters recognised by `String.prototype.trimEnd` / `trim`:
ECMAScript WhiteSpace (TAB, VT, FF, SP, NBSP, ZWNBSP and the Unicode
space separators) together with LineTerminator (LF, CR, LS, PS). -/
def isJsWhitespace (c : Char) : Bool :=
  c.val = 9 ∨ c.val = 10 ∨ c.val = 11 ∨ c.val = 12 ∨ c.val = 13 ∨ c.val = 32 ∨
  c.val = 160 ∨ c.val = 5760 ∨ (8192 ≤ c.val ∧ c.val ≤ 8202) ∨ c.val = 8232 ∨
  c.val = 8233 ∨ c.val = 8239 ∨ c.val = 8287 ∨ c.val = 12288 ∨ c.val = 65279

/-- `String.prototype.trimStart`. -/
def jsTrimStart (t : Text) : Text := t.dropWhile isJsWhitespace

/-- `String.prototype.trimEnd`. -/
def jsTrimEnd (t : Text) : Text := (t.reverse.dropWhile isJsWhitespace).reverse

/-- `String.prototype.trim`. -/
def jsTrim (t : Text) : Text := jsTrimEnd (jsTrimStart t)

/-- Decimal rendering of a natural number (JavaScript number-to-string
interpolation for the non-negative integers used by the script). -/
def natToText (n : Nat) : Text := (Nat.repr n).toList

/-- Auxiliary scan for `findFirstIdx`, carrying the index reached so far. -/
def findFirstIdxAux (pat : Text) : Text → Nat → Option Nat
  | [], i => if pat.isPrefixOf ([] : Text) then some i else none
  | c :: tl, i =>
    if pat.isPrefixOf (c :: tl) then some i else findFirstIdxAux pat tl (i + 1)

/-- Index of the first occurrence of `pat` inside `text`
(`String.prototype.indexOf`, `none` for -1). -/
def findFirstIdx (pat text : Text) : Option Nat := findFirstIdxAux pat text 0

/-- `String.prototype.includes`. -/
def containsSub (text pat : Text) : Bool := (findFirstIdx pat text).isSome

theorem findFirstIdxAux_eq_some (pat : Text) :
    ∀ (t : Text) (k i : Nat), findFirstIdxAux pat t k = some i ↔
      k ≤ i ∧ pat.isPrefixOf (t.drop (i - k)) ∧
        ∀ j, k ≤ j → j < i → ¬ pat.isPrefixOf (t.drop (j - k)) := by
  intro t
  induction t with
  | nil =>
    intro k i
    simp only [findFirstIdxAux]
    by_cases h : pat.isPrefixOf ([] : Text)
    · simp only [h, if_true]
      constructor
      · rintro h'
        cases h'
        exact ⟨le_refl _, by simpa using h, fun j hj1 hj2 => absurd hj2 (by omega)⟩
      · rintro ⟨hki, hpre, hmin⟩
        by_cases hik : i = k
        · simp [hik]
        · exact absurd (by simpa using h) (hmin k (le_refl _) (by omega))
    · rw [if_neg h]
      constructor
      · intro h'; cases h'
      · rintro ⟨hki, hpre, _⟩
        exact absurd (by simpa using hpre) h
  | cons c tl ih =>
    intro k i
    simp only [findFirstIdxAux]
    by_cases h : pat.isPrefixOf (c :: tl)
    · simp only [h, if_true]
      constructor
      · rintro h'
        cases h'
        exact ⟨le_refl _, by simpa using h, fun j hj1 hj2 => absurd hj2 (by omega)⟩
      · rintro ⟨hki, hpre, hmin⟩
        by_cases hik : i = k
        · simp [hik]
        · exact absurd (by simpa using h) (hmin k (le_refl _) (by omega))
    · rw [if_neg h]
      rw [ih (k + 1) i]
      constructor
      · rintro ⟨hki, hpre, hmin⟩
        refine ⟨by omega, ?_, ?_⟩
        · have : (c :: tl).drop (i - k) = tl.drop (i - (k + 1)) := by
            have : i - k = (i - (k+1)) + 1 := by omega
            simp [this]
          rw [this]; exact hpre
        · intro j hj1 hj2
          by_cases hjk : j = k
          · subst hjk; simpa using h
          · have hj1' : k + 1 ≤ j := by omega
            have : (c :: tl).drop (j - k) = tl.drop (j - (k + 1)) := by
              have : j - k = (j - (k+1)) + 1 := by omega
              simp [this]
            rw [this]; exact hmin j hj1' hj2
      · rintro ⟨hki, hpre, hmin⟩
        have hik : i ≠ k := by
          intro hik
          subst hik
          exact h (by simpa using hpre)
        refine ⟨by omega, ?_, ?_⟩
        · have : tl.drop (i - (k + 1)) = (c :: tl).drop (i - k) := by
            have : i - k = (i - (k+1)) + 1 := by omega
            simp [this]
          rw [← this] at hpre; exact hpre
        · intro j hj1 hj2
          have : tl.drop (j - (k + 1)) = (c :: tl).drop (j - k) := by
            have : j - k = (j - (k+1)) + 1 := by omega
            simp [this]
          rw [this]
          exact hmin j (by omega) hj2

/-- Specification of `findFirstIdx`: the returned index is the first
position where `pat` occurs as a prefix of the corresponding suffix. -/
theorem findFirstIdx_eq_some (pat t : Text) (i : Nat) :
    findFirstIdx pat t = some i ↔
      pat.isPrefixOf (t.drop i) ∧ ∀ j < i, ¬ pat.isPrefixOf (t.drop j) := by
  unfold findFirstIdx
  rw [findFirstIdxAux_eq_some]
  constructor
  · rintro ⟨_, hpre, hmin⟩
    exact ⟨by simpa using hpre, fun j hj => by simpa using hmin j (Nat.zero_le _) hj⟩
  · rintro ⟨hpre, hmin⟩
    exact ⟨Nat.zero_le _, by simpa using hpre, fun j _ hj => by simpa using hmin j hj⟩

theorem findFirstIdx_isSome_of_suffix_occ (pat t : Text) (n : Nat)
    (h : pat.isPrefixOf (t.drop n)) : (findFirstIdx pat t).isSome := by
  by_contra hns
  rw [Option.not_isSome_iff_eq_none] at hns
  -- if the scan returns none there is no occurrence at any index
  have : ∀ (u : Text) (k : Nat), findFirstIdxAux pat u k = none →
      ∀ m, ¬ pat.isPrefixOf (u.drop m) := by
    intro u
    induction u with
    | nil =>
      intro k hk m
      simp only [findFirstIdxAux] at hk
      split at hk
      · cases hk
      · simpa using ‹¬ pat.isPrefixOf ([] : Text)›
    | cons c tl ih =>
      intro k hk m
      simp only [findFirstIdxAux] at hk
      split at hk
      · cases hk
      · match m with
        | 0 => simpa using ‹¬ pat.isPrefixOf (c :: tl)›
        | m + 1 => exact ih (k + 1) hk m
  exact this t 0 hns n h

/-! ## Sentinel markers and the document injector (`replaceBetweenMarkers`) -/

def MARKER_START : Text := lit "<!-- ideas:start -->"

def MARKER_END : Text := lit "<!-- ideas:end -->"

/-- The text inserted between the capture groups in the replacement template
`` $1\n\n_Updated automatically on merge to `main`._\n${newBlock}$3 ``. -/
def updatedPreamble : Text := lit "\n\n_Updated automatically on merge to `main`._\n"

/-- ECMAScript `GetSubstitution`: expansion of `$`-sequences in a replacement
template, for a match with three capture groups.  `pre` is the portion before
the match, `mat` the matched substring, `suf` the portion after it, and
`g1 g2 g3` the captures.  With three groups a two-digit reference `$nn` is
valid only for `$01`..`$03`; otherwise the single-digit rule or the literal
fallback of the specification applies. -/
def expandTemplate (pre mat suf g1 g2 g3 : Text) : Text → Text
  | [] => []
  | c :: rest =>
    if c = '$' then
      match rest with
      | [] => ['$']
      | d :: t =>
        if d = '$' then '$' :: expandTemplate pre mat suf g1 g2 g3 t
        else if d = '&' then mat ++ expandTemplate pre mat suf g1 g2 g3 t
        else if d.val = 96 then pre ++ expandTemplate pre mat suf g1 g2 g3 t
        else if d.val = 39 then suf ++ expandTemplate pre mat suf g1 g2 g3 t
        else if d = '1' then g1 ++ expandTemplate pre mat suf g1 g2 g3 t
        else if d = '2' then g2 ++ expandTemplate pre mat suf g1 g2 g3 t
        else if d = '3' then g3 ++ expandTemplate pre mat suf g1 g2 g3 t
        else if d = '0' then
          match t with
          | e :: t2 =>
            if e = '1' then g1 ++ expandTemplate pre mat suf g1 g2 g3 t2
            else if e = '2' then g2 ++ expandTemplate pre mat suf g1 g2 g3 t2
            else if e = '3' then g3 ++ expandTemplate pre mat suf g1 g2 g3 t2
            else '$' :: '0' :: expandTemplate pre mat suf g1 g2 g3 (e :: t2)
          | [] => ['$', '0']
        else '$' :: d :: expandTemplate pre mat suf g1 g2 g3 t
    else c :: expandTemplate pre mat suf g1 g2 g3 rest

/-- `replaceBetweenMarkers(readmeText, newBlock)`.  When both markers occur,
the regex `(START)([\s\S]*?)(END)` matches at the first occurrence of the
start marker, its lazy middle group ending at the first end marker after it,
and the single replacement applies the template
`` $1\n\n_Updated automatically on merge to `main`._\n${newBlock}$3 ``;
with no match, or when a marker is missing, the original text (resp. the
appended fresh region) is returned. -/
def replaceBetweenMarkers (readmeText newBlock : Text) : Text :=
  if containsSub readmeText MARKER_START && containsSub readmeText MARKER_END then
    match findFirstIdx MARKER_START readmeText with
    | none => readmeText
    | some i =>
      match findFirstIdx MARKER_END (readmeText.drop (i + MARKER_START.length)) with
      | none => readmeText
      | some j =>
        let middle := (readmeText.drop (i + MARKER_START.length)).take j
        let pre := readmeText.take i
        let suf := readmeText.drop (i + MARKER_START.length + j + MARKER_END.length)
        let tpl := lit "$1" ++ updatedPreamble ++ newBlock ++ lit "$3"
        pre ++
          expandTemplate pre (MARKER_START ++ middle ++ MARKER_END) suf
            MARKER_START middle MARKER_END tpl ++ suf
  else
    jsTrimEnd readmeText ++ lit "\n\n" ++ MARKER_START ++
      lit "\n\n_Updated automatically on merge to `main`._\n\n" ++ newBlock ++
      lit "\n" ++ MARKER_END ++ lit "\n"

theorem expandTemplate_cons_no_dollar (pre mat suf g1 g2 g3 : Text) (c : Char)
    (t : Text) (hc : c ≠ '$') :
    expandTemplate pre mat suf g1 g2 g3 (c :: t) =
      c :: expandTemplate pre mat suf g1 g2 g3 t := by
  rw [expandTemplate.eq_def]
  simp [hc]

theorem expandTemplate_append_no_dollar (pre mat suf g1 g2 g3 : Text)
    (xs ys : Text) (h : ('$' : Char) ∉ xs) :
    expandTemplate pre mat suf g1 g2 g3 (xs ++ ys) =
      xs ++ expandTemplate pre mat suf g1 g2 g3 ys := by
  induction xs with
  | nil => simp
  | cons c tl ih =>
    have hc : c ≠ '$' := fun hcc => h (hcc ▸ List.mem_cons_self c tl)
    have htl : ('$' : Char) ∉ tl := fun hm => h (List.mem_cons_of_mem c hm)
    simp only [List.cons_append]
    rw [expandTemplate_cons_no_dollar _ _ _ _ _ _ _ _ hc, ih htl]

theorem expandTemplate_group1 (pre mat suf g1 g2 g3 : Text) (t : Text) :
    expandTemplate pre mat suf g1 g2 g3 ('$' :: '1' :: t) =
      g1 ++ expandTemplate pre mat suf g1 g2 g3 t := by
  rw [expandTemplate.eq_def]
  simp

theorem expandTemplate_group3 (pre mat suf g1 g2 g3 : Text) (t : Text) :
    expandTemplate pre mat suf g1 g2 g3 ('$' :: '3' :: t) =
      g3 ++ expandTemplate pre mat suf g1 g2 g3 t := by
  rw [expandTemplate.eq_def]
  simp

/-- The template used by `replaceBetweenMarkers` expands literally when the
injected block contains no dollar sign. -/
theorem expandTemplate_inject (pre mat suf g1 g2 g3 block : Text)
    (h : ('$' : Char) ∉ block) :
    expandTemplate pre mat suf g1 g2 g3
        (lit "$1" ++ updatedPreamble ++ block ++ lit "$3") =
      g1 ++ updatedPreamble ++ block ++ g3 := by
  have hp : ('$' : Char) ∉ updatedPreamble := by decide
  have hpb : ('$' : Char) ∉ updatedPreamble ++ block := by
    intro hm
    rcases List.mem_append.1 hm with hm | hm
    · exact hp hm
    · exact h hm
  have : lit "$1" ++ updatedPreamble ++ block ++ lit "$3" =
      '$' :: '1' :: ((updatedPreamble ++ block) ++ lit "$3") := by
    simp [lit]
  rw [this, expandTemplate_group1, expandTemplate_append_no_dollar _ _ _ _ _ _ _ _ hpb]
  have : expandTemplate pre mat suf g1 g2 g3 (lit "$3") = g3 := by
    have : lit "$3" = '$' :: '3' :: ([] : Text) := by simp [lit]
    rw [this, expandTemplate_group3]
    simp only [expandTemplate, List.append_nil]
  rw [this]
  simp

/-- Marker-replacement characterisation: when the start marker first occurs at
`i` and the end marker first occurs `j` characters after it, the injector
rewrites exactly the region strictly between the two markers. -/
theorem replaceBetweenMarkers_replace (doc block : Text) (i j : Nat)
    (h1 : findFirstIdx MARKER_START doc = some i)
    (h2 : findFirstIdx MARKER_END (doc.drop (i + MARKER_START.length)) = some j)
    (hd : ('$' : Char) ∉ block) :
    replaceBetweenMarkers doc block =
      doc.take i ++ MARKER_START ++ updatedPreamble ++ block ++ MARKER_END ++
        doc.drop (i + MARKER_START.length + j + MARKER_END.length) := by
  have hcs : containsSub doc MARKER_START = true := by
    simp [containsSub, h1]
  have hocc : MARKER_END.isPrefixOf
      (doc.drop (i + MARKER_START.length + j)) := by
    have hpre := ((findFirstIdx_eq_some _ _ _).1 h2).1
    rw [List.drop_drop] at hpre
    exact hpre
  have hce : containsSub doc MARKER_END = true := by
    simpa [containsSub] using
      findFirstIdx_isSome_of_suffix_occ MARKER_END doc _ hocc
  have hb : (containsSub doc MARKER_START && containsSub doc MARKER_END) = true := by
    simp [hcs, hce]
  unfold replaceBetweenMarkers
  rw [if_pos hb]
  simp only [h1, h2]
  rw [expandTemplate_inject _ _ _ _ _ _ _ hd]
  simp [List.append_assoc]

/-- When either marker is absent the injector appends a fresh delimited
region after trimming trailing whitespace. -/
theorem replaceBetweenMarkers_append_case (doc block : Text)
    (h : containsSub doc MARKER_START = false ∨ containsSub doc MARKER_END = false) :
    replaceBetweenMarkers doc block =
      jsTrimEnd doc ++ lit "\n\n" ++ MARKER_START ++
        lit "\n\n_Updated automatically on merge to `main`._\n\n" ++ block ++
        lit "\n" ++ MARKER_END ++ lit "\n" := by
  unfold replaceBetweenMarkers
  rcases h with h | h <;> simp [h]

/-- When both markers occur but no end marker follows the first start marker,
the regex fails to match and the document is returned unchanged. -/
theorem replaceBetweenMarkers_no_match (doc block : Text) (i : Nat)
    (h1 : findFirstIdx MARKER_START doc = some i)
    (hce : containsSub doc MARKER_END = true)
    (h2 : findFirstIdx MARKER_END (doc.drop (i + MARKER_START.length)) = none) :
    replaceBetweenMarkers doc block = doc := by
  have hcs : containsSub doc MARKER_START = true := by simp [containsSub, h1]
  have hb : (containsSub doc MARKER_START && containsSub doc MARKER_END) = true := by
    simp [hcs, hce]
  unfold replaceBetweenMarkers
  rw [if_pos hb]
  simp only [h1, h2]

/-! ## Dates: the subset of JavaScript `Date` used by the script -/

def isLeapYear (y : Nat) : Bool := (y % 4 = 0 ∧ y % 100 ≠ 0) ∨ y % 400 = 0

def daysInMonth (y m : Nat) : Nat :=
  if m = 1 then 31 else if m = 2 then (if isLeapYear y then 29 else 28)
  else if m = 3 then 31 else if m = 4 then 30 else if m = 5 then 31
  else if m = 6 then 30 else if m = 7 then 31 else if m = 8 then 31
  else if m = 9 then 30 else if m = 10 then 31 else if m = 11 then 30 else 31

/-- Days from the Unix epoch to the civil date `y-m-d`
(proleptic Gregorian, Hinnant's algorithm; exact for the years 0–9999
parsed below, where all intermediate divisions have non-negative operands). -/
def daysFromCivil (y m d : Int) : Int :=
  let y2 := if m ≤ 2 then y - 1 else y
  let era := (if 0 ≤ y2 then y2 else y2 - 399) / 400
  let yoe := y2 - era * 400
  let mp := (m + 9) % 12
  let doy := (153 * mp + 2) / 5 + d - 1
  let doe := yoe * 365 + yoe / 4 - yoe / 100 + doy
  era * 146097 + doe - 719468

/-- A valid JavaScript `Date`, carried as its UTC civil fields.  The epoch
value `getTimeMs` and the ISO rendering below are the two observations the
script makes of it. -/
structure DateV where
  year : Nat
  month : Nat
  day : Nat
  hour : Nat
  minute : Nat
  second : Nat
deriving DecidableEq, Repr

/-- `Date.prototype.getTime` (milliseconds since the epoch; exact, the
values involved are far below 2^53). -/
def DateV.getTimeMs (d : DateV) : Int :=
  (daysFromCivil d.year d.month d.day * 86400 +
    ((d.hour : Int) * 3600 + (d.minute : Int) * 60 + (d.second : Int))) * 1000

def padLeftZeros (n w : Nat) : Text :=
  List.replicate (w - (natToText n).length) '0' ++ natToText n

/-- `Date.prototype.toISOString().slice(0, 10)`: the `YYYY-MM-DD` part of
the ISO rendering (the stored fields are the UTC civil fields, so this is
direct formatting). -/
def DateV.isoDate10 (d : DateV) : Text :=
  padLeftZeros d.year 4 ++ lit "-" ++ padLeftZeros d.month 2 ++ lit "-" ++
    padLeftZeros d.day 2

def digitVal (c : Char) : Option Nat :=
  if '0' ≤ c ∧ c ≤ '9' then some (c.toNat - 48) else none

def twoDigits (a b : Char) : Option Nat := do
  let x ← digitVal a
  let y ← digitVal b
  pure (10 * x + y)

def fourDigits (a b c d : Char) : Option Nat := do
  let x ← twoDigits a b
  let y ← twoDigits c d
  pure (100 * x + y)

def mkValidDate (y mo dy hh mi ss : Nat) : Option DateV :=
  if 1 ≤ mo ∧ mo ≤ 12 ∧ 1 ≤ dy ∧ dy ≤ daysInMonth y mo ∧ hh ≤ 23 ∧ mi ≤ 59 ∧
      ss ≤ 59 then
    some ⟨y, mo, dy, hh, mi, ss⟩
  else none

/-- `new Date(string)` for the strings this script builds
(`createdRaw.replace(" ", "T") + "Z"`): the ECMAScript Date Time String
Format shapes `YYYY-MM-DDTHH:MM:SSZ` and `YYYY-MM-DDTHH:MMZ` with valid
component ranges.  Every other string yields an invalid date (`none`). -/
def jsDateParse (t : Text) : Option DateV :=
  match t with
  | [a, b, c, d, s1, e, f, s2, g, h, tc, i, j, c1, k, l, c2, m, n, z] =>
    if s1 = '-' ∧ s2 = '-' ∧ tc = 'T' ∧ c1 = ':' ∧ c2 = ':' ∧ z = 'Z' then
      match fourDigits a b c d, twoDigits e f, twoDigits g h, twoDigits i j,
          twoDigits k l, twoDigits m n with
      | some y, some mo, some dy, some hh, some mi, some ss =>
        mkValidDate y mo dy hh mi ss
      | _, _, _, _, _, _ => none
    else none
  | [a, b, c, d, s1, e, f, s2, g, h, tc, i, j, c1, k, l, z] =>
    if s1 = '-' ∧ s2 = '-' ∧ tc = 'T' ∧ c1 = ':' ∧ z = 'Z' then
      match fourDigits a b c d, twoDigits e f, twoDigits g h, twoDigits i j,
          twoDigits k l with
      | some y, some mo, some dy, some hh, some mi => mkValidDate y mo dy hh mi 0
      | _, _, _, _, _ => none
    else none
  | _ => none

/-- `s.replace(" ", "T")`-style single-character first-occurrence
replacement. -/
def replaceFirstChar (c r : Char) : Text → Text
  | [] => []
  | x :: t => if x = c then r :: t else x :: replaceFirstChar c r t

/-! ## The record parser -/

/-- A parsed idea record (the result object of `parseXmlFile`).
`created_dt` is `none` for JavaScript `null`, `some none` for an invalid
`Date` object, and `some (some d)` for a valid one. -/
structure Rec where
  project_name : Text
  focus_area : Text
  description : Text
  impact : Text
  created_dt : Option (Option DateV)
  created_raw : Text
  path : Text
deriving DecidableEq, Repr

def alistLookup {α : Type} : List (Text × α) → Text → Option α
  | [], _ => none
  | (k, v) :: t, key => if k = key then some v else alistLookup t key

def alistSet {α : Type} : List (Text × α) → Text → α → List (Text × α)
  | [], k, v => [(k, v)]
  | (k2, v2) :: t, k, v => if k2 = k then (k, v) :: t else (k2, v2) :: alistSet t k v

def asciiToLower (c : Char) : Char :=
  if 'A' ≤ c ∧ c ≤ 'Z' then Char.ofNat (c.toNat + 32) else c

def asciiToUpper (c : Char) : Char :=
  if 'a' ≤ c ∧ c ≤ 'z' then Char.ofNat (c.toNat - 32) else c

def isWordChar (c : Char) : Bool :=
  ('a' ≤ c ∧ c ≤ 'z') ∨ ('A' ≤ c ∧ c ≤ 'Z') ∨ ('0' ≤ c ∧ c ≤ '9') ∨ c = '_'

def FOCUS_MAP : List (Text × Text) :=
  [(lit "cure", lit "🧪 Cause and Cure"),
   (lit "disaster", lit "🆘 Disaster and Community Support"),
   (lit "education", lit "🎓 Education and Youth Services"),
   (lit "sustainability", lit "🌱 Sustainability and Decarbonization"),
   (lit "other", lit "🧩 Other")]

/-- `.replace(/\b\w/g, s => s.toUpperCase())`: upper-case every word
character that starts a word.  The boolean argument records whether the
previous character was a word character. -/
def capWordStarts : Bool → Text → Text
  | _, [] => []
  | prevW, c :: t =>
    (if ¬ prevW ∧ isWordChar c then asciiToUpper c else c) ::
      capWordStarts (isWordChar c) t

def friendlyFocus (value : Text) : Text :=
  if value = [] then lit "—"
  else
    let key := (jsTrim value).map asciiToLower
    match alistLookup FOCUS_MAP key with
    | some v => v
    | none => capWordStarts false (key.map fun c => if c = '_' then ' ' else c)

/-- `firstText(obj, key)`: the record node is modelled as the mapping from
field names to their already-stringified values; a missing or null field
gives the empty string, a present one is trimmed. -/
def firstText (record : List (Text × Text)) (key : Text) : Text :=
  match alistLookup record key with
  | some v => jsTrim v
  | none => []

/-- `parseXmlFile` after the XML decode: `record` is the located
`x_snc_hack4good_0_hack4good_proposal` node (`none` when neither the nested
nor the flat path holds one), `filePath` the file path.  Any failure is
caught and reported as `none` (the caller counts it as a parse failure). -/
def parseXmlRecord (record : Option (List (Text × Text))) (filePath : Text) :
    Option Rec :=
  match record with
  | none => none
  | some r =>
    let projectName := firstText r (lit "project_name")
    if projectName = [] then none
    else
      let createdRaw := firstText r (lit "sys_created_on")
      some
        { project_name := projectName,
          focus_area := friendlyFocus (firstText r (lit "focus_area")),
          description :=
            (let d := firstText r (lit "description")
             if d = [] then
               (let sd := firstText r (lit "short_description")
                if sd = [] then lit "—" else sd)
             else d),
          impact :=
            (let i := firstText r (lit "impact_statement")
             if i = [] then lit "—" else i),
          created_dt :=
            if createdRaw = [] then none
            else some (jsDateParse (replaceFirstChar ' ' 'T' createdRaw ++ lit "Z")),
          created_raw := createdRaw,
          path := filePath }

/-! ## The sort on records (`parsed.sort((a, b) => bv - av)`) -/

/-- Comparator key: `a.created_dt ? a.created_dt.getTime() : -Infinity`.
A null date gives `-Infinity`, an invalid date a NaN `getTime`. -/
inductive SKey
  | negInf
  | nan
  | fin (t : Int)
deriving DecidableEq, Repr

def recSortKey (r : Rec) : SKey :=
  match r.created_dt with
  | none => .negInf
  | some none => .nan
  | some (some d) => .fin d.getTimeMs

/-- Sign of `SortCompare` for the comparator `(a, b) => bv - av`, with the
ECMAScript rule that a NaN comparator result counts as `+0`
(`(-∞) - (-∞)` is NaN). -/
def jsCompareSign (a b : Rec) : Int :=
  match recSortKey a, recSortKey b with
  | .nan, _ => 0
  | _, .nan => 0
  | .negInf, .negInf => 0
  | .negInf, .fin _ => 1
  | .fin _, .negInf => -1
  | .fin ta, .fin tb => tb - ta

def recBefore (a b : Rec) : Bool := jsCompareSign a b ≤ 0

def insertSorted (a : Rec) : List Rec → List Rec
  | [] => [a]
  | b :: t => if recBefore a b then a :: b :: t else b :: insertSorted a t

/-- `Array.prototype.sort` is required to be stable; on every list whose
comparator behaves consistently (in particular whenever no record carries
an invalid date) a stable insertion sort computes the sorted array. -/
def jsSortRecs : List Rec → List Rec
  | [] => []
  | a :: t => insertSorted a (jsSortRecs t)

/-! ## Attribution records and the table builder -/

/-- An in-memory attribution record (`{ login, avatar_url, html_url }` plus
the optional bookkeeping keys the script adds).  `login` is `none` for
JavaScript `null`; `resolvedFrom` is `none` when the `__resolved_from` key
is absent, `some none`/`some (some sha)` when it holds null/a hash;
`seenFlag` is the truthiness of the optional `__seen` key. -/
structure Attr where
  login : Option Text
  avatar_url : Text
  html_url : Text
  resolvedFrom : Option (Option Text)
  seenFlag : Bool
deriving DecidableEq, Repr

/-- Truthiness of `attr.login` (false for null and for the empty string). -/
def loginTruthy (a : Attr) : Bool :=
  match a.login with
  | some (_ :: _) => true
  | _ => false

/-- `renderSubmitterCell(attr)`; the argument is `none` when the looked-up
entry is `undefined`. -/
def renderSubmitterCell (attr : Option Attr) : Text :=
  let login :=
    match attr with
    | some a => match a.login with
      | some (c :: t) => c :: t
      | _ => lit "unknown"
    | none => lit "unknown"
  let url := match attr with | some a => a.html_url | none => []
  let avatar := match attr with | some a => a.avatar_url | none => []
  if url ≠ [] then
    let img :=
      if avatar ≠ [] then
        lit "<img src=\"" ++ avatar ++
          lit "\" width=\"20\" height=\"20\" alt=\"@" ++ login ++
          lit "\" style=\"vertical-align:middle;border-radius:4px;margin-right:6px\"/>"
      else []
    lit "<a href=\"" ++ url ++ lit "\">" ++ img ++ lit "@" ++ login ++ lit "</a>"
  else lit "@" ++ login

/-- `truncate(text, limit)`. -/
def truncate (text : Text) (limit : Nat) : Text :=
  if text = [] then lit "—"
  else if text.length ≤ limit then text
  else jsTrim (text.take (limit - 1)) ++ lit "…"

def seenHas (s : List Text) (k : Text) : Bool := decide (k ∈ s)

def seenAdd (s : List Text) (k : Text) : List Text :=
  if decide (k ∈ s) then s else s ++ [k]

/-- `attrs[key].__seen = true` (the entry exists whenever the script runs
this line; on a missing key the mapping is returned unchanged). -/
def setSeenFlag (m : List (Text × Attr)) (k : Text) : List (Text × Attr) :=
  match alistLookup m k with
  | some a => alistSet m k { a with seenFlag := true }
  | none => m

def fallbackUnknownAttr : Attr :=
  { login := some (lit "Unknown"), avatar_url := [], html_url := [],
    resolvedFrom := none, seenFlag := false }

/-- The resolution block: `firstAddingCommitSha` then
`resolveAttributionForCommit` (which returns null immediately on a null
sha), the `{ login: "Unknown", ... }` fallback, and the
`__resolved_from = sha || null` bookkeeping write.  `shaOf` and `resolveO`
are the oracles abstracting the git query and the network lookups. -/
def resolveViaNetwork (shaOf : Text → Option Text)
    (resolveO : Text → Option Attr) (key : Text) : Attr :=
  let sha := shaOf key
  let resolved := match sha with | none => none | some s => resolveO s
  let attr := resolved.getD fallbackUnknownAttr
  { attr with resolvedFrom := some sha }

/-- `categoryCount[focus] = (categoryCount[focus] || 0) + 1` on an
insertion-ordered object. -/
def bumpCount (m : List (Text × Nat)) (k : Text) : List (Text × Nat) :=
  match alistLookup m k with
  | some n => alistSet m k (n + 1)
  | none => m ++ [(k, 1)]

/-- `toISOString().slice(0, 10)` guarded by the truthiness of
`created_dt`: a null date renders the placeholder, an invalid date throws
(`RangeError`, modelled as `Except.error`). -/
def renderCreatedCell (cd : Option (Option DateV)) : Except Unit Text :=
  match cd with
  | none => .ok (lit "—")
  | some none => .error ()
  | some (some d) => .ok d.isoDate10

/-- The in-flight state of `buildTable`'s main loop. -/
structure BTState where
  attrs : List (Text × Attr)
  seen : List Text
  rows : List Text
  catCount : List (Text × Nat)
  newlySeen : List Text
  resolvedKeys : List Text
deriving Repr, DecidableEq

/-- Whether the cache holds an entry with a truthy login for `key`
(the negation of the condition guarding the resolution block). -/
def cachedLoginTruthy (attrs : List (Text × Attr)) (k : Text) : Bool :=
  match alistLookup attrs k with
  | some a => loginTruthy a
  | none => false

/-- The `wasSeen` test of the loop, as a function of the loaded cache:
the meta seen set, or the legacy `__seen` flag on the cached record. -/
def effSeen (attrs : List (Text × Attr)) (seen : List Text) (k : Text) : Bool :=
  seenHas seen k ||
    (match alistLookup attrs k with | some a => a.seenFlag | none => false)

/-- One iteration of `buildTable`'s `for (const it of items)` loop.
`resolvedKeys` additionally records, as an observation of the model, for
which keys the network resolution block ran. -/
def processItem (shaOf : Text → Option Text) (resolveO : Text → Option Attr)
    (st : BTState) (it : Rec) : Except Unit BTState :=
  let project := lit "[" ++ it.project_name ++ lit "](" ++ it.path ++ lit ")"
  let focus := it.focus_area
  let key := it.path
  let catCount := bumpCount st.catCount focus
  let wasSeen := effSeen st.attrs st.seen key
  let needResolve := !(cachedLoginTruthy st.attrs key)
  let attrs1 :=
    if needResolve then alistSet st.attrs key (resolveViaNetwork shaOf resolveO key)
    else st.attrs
  let resolved1 := if needResolve then st.resolvedKeys ++ [key] else st.resolvedKeys
  let isNew := !wasSeen
  let attrs2 := if isNew then setSeenFlag attrs1 key else attrs1
  let seen2 := if isNew then seenAdd st.seen key else st.seen
  let newly2 := if isNew then st.newlySeen ++ [key] else st.newlySeen
  let submitter := renderSubmitterCell (alistLookup attrs2 key)
  match renderCreatedCell it.created_dt with
  | .error e => .error e
  | .ok created =>
    let desc := truncate it.description 110
    let impact := truncate it.impact 70
    let protoProject := if isNew then lit "✨ " ++ project else project
    let row := lit "| " ++ protoProject ++ lit " | " ++ focus ++ lit " | " ++
      desc ++ lit " | " ++ impact ++ lit " | " ++ submitter ++ lit " | " ++
      created ++ lit " |"
    .ok { attrs := attrs2, seen := seen2, rows := st.rows ++ [row],
          catCount := catCount, newlySeen := newly2, resolvedKeys := resolved1 }

def processItems (shaOf : Text → Option Text) (resolveO : Text → Option Attr) :
    List Rec → BTState → Except Unit BTState
  | [], st => .ok st
  | it :: t, st =>
    match processItem shaOf resolveO st it with
    | .error e => .error e
    | .ok st2 => processItems shaOf resolveO t st2

/-- `Array.prototype.join(sep)`. -/
def joinSep (sep : Text) : List Text → Text
  | [] => []
  | [x] => x
  | x :: y :: t => x ++ sep ++ joinSep sep (y :: t)

/-- `items[0]` / `items[items.length - 1]` date rendering for the summary
(`?.` gives the placeholder on an empty array). -/
def summaryDates (items : List Rec) : Except Unit (Text × Text) :=
  match
    (match items.head? with
     | some r => renderCreatedCell r.created_dt
     | none => .ok (lit "—")) with
  | .error e => .error e
  | .ok newest =>
    match
      (match items.getLast? with
       | some r => renderCreatedCell r.created_dt
       | none => .ok (lit "—")) with
    | .error e => .error e
    | .ok oldest => .ok (oldest, newest)

/-- `Object.entries(categoryCount).sort((a, b) => b[1] - a[1])`
(stable, counts are plain numbers). -/
def insertCountDesc (p : Text × Nat) : List (Text × Nat) → List (Text × Nat)
  | [] => [p]
  | q :: t => if (q.2 : Int) - (p.2 : Int) ≤ 0 then p :: q :: t
    else q :: insertCountDesc p t

def sortCountsDesc : List (Text × Nat) → List (Text × Nat)
  | [] => []
  | p :: t => insertCountDesc p (sortCountsDesc t)

/-- The outcome of `buildTable`: the markdown block, the cache contents as
passed to `saveCacheFile` (`cacheSaved` records whether that call ran at
all), and the observable per-run sets. -/
structure BuildOut where
  table : Text
  attrsOut : List (Text × Attr)
  seenOut : List Text
  lastRunOut : Option Text
  cacheSaved : Bool
  newlySeen : List Text
  resolvedKeys : List Text
deriving Repr, DecidableEq

/-- `buildTable(items)` over the cache state loaded at entry
(`attrs0`, `seen0`); `nowIso` is `new Date().toISOString()` at the save. -/
def buildTable (shaOf : Text → Option Text) (resolveO : Text → Option Attr)
    (items : List Rec) (attrs0 : List (Text × Attr)) (seen0 : List Text)
    (nowIso : Text) : Except Unit BuildOut :=
  if items = [] then
    .ok { table := lit "\n_No ideas yet. Be the first to submit one!_\n",
          attrsOut := attrs0, seenOut := seen0, lastRunOut := none,
          cacheSaved := false, newlySeen := [], resolvedKeys := [] }
  else
    match processItems shaOf resolveO items
        { attrs := attrs0, seen := seen0, rows := [], catCount := [],
          newlySeen := [], resolvedKeys := [] } with
    | .error e => .error e
    | .ok st =>
      match summaryDates items with
      | .error e => .error e
      | .ok (oldest, newest) =>
        let total := items.length
        let sortedCats := sortCountsDesc st.catCount
        let topFocus :=
          match sortedCats.head? with
          | some p => p.1
          | none => lit "N/A"
        let summaryLines :=
          [lit "**Total Ideas:** " ++ natToText total,
           lit "**Top Focus Area:** " ++ topFocus,
           lit "**Date Range:** " ++ oldest ++ lit " → " ++ newest,
           lit "**New submissions this run:** " ++ natToText st.newlySeen.length]
        let summaryMd := lit "### 📊 Ideas Summary\n\n" ++
          joinSep (lit "  \n") summaryLines ++ lit "\n\n"
        let header := lit "| Project | Focus area | Description | Impact | Submitted by | Created (UTC) |\n|---|---|---|---|---|---|\n"
        .ok { table := lit "\n" ++ summaryMd ++ header ++
                joinSep (lit "\n") st.rows ++ lit "\n",
              attrsOut := st.attrs, seenOut := st.seen,
              lastRunOut := some nowIso, cacheSaved := true,
              newlySeen := st.newlySeen, resolvedKeys := st.resolvedKeys }

/-! ## The run (`main`) -/

/-- The static banner of `headerBlock` in `main`. -/
def headerBanner : Text :=
  lit "## A Special Partnership: Hack4Good\n\nWe are thrilled to announce that we are partnering with our friends at Hack4Good!\n\n> This repository stores idea submissions for Hack4Good initiatives. You can import this application into a ServiceNow instance and submit ideas. Follow the CONTRIBUTING.md for guidelines.\n\n"

def headerBlock (contributorsMd tableMd : Text) : Text :=
  headerBanner ++ contributorsMd ++ lit "\n" ++ tableMd ++ lit "\n"

/-- `readReadme()`: the on-disk document, or the seed text when the file is
absent. -/
def readReadme (disk : Option Text) : Text := disk.getD (lit "# Hack4Good\n\n")

def lastUpdatedSentinel : Text := lit "\n_Last updated:"

/-- `current.replace(/\n_Last updated:[\s\S]*?_\n?$/, "")`: the pattern is
anchored at the end of the string, so a match exists exactly when the text
ends in `_` or `_\n` with that underscore at or after the end of the first
occurrence of the sentinel; the match then spans from that first occurrence
to the end. -/
def removeTrailingLastUpdated (t : Text) : Text :=
  match findFirstIdx lastUpdatedSentinel t with
  | none => t
  | some i =>
    match t.reverse with
    | '_' :: _ =>
      if i + lastUpdatedSentinel.length + 1 ≤ t.length then t.take i else t
    | '\n' :: '_' :: _ =>
      if i + lastUpdatedSentinel.length + 2 ≤ t.length then t.take i else t
    | _ => t

/-- Observable outcome of one execution of `main` (modulo console logging
and the optional PR comment, which touch no file).  `finalDisk` is the
README content after the run; `attrsSaved`/`seenSaved`/`lastRunSaved` are
the cache contents passed to `saveCacheFile` when `cacheSaved` is true. -/
structure RunOut where
  fatal : Bool
  updatedDoc : Text
  finalDisk : Option Text
  backupWritten : Bool
  docWritten : Bool
  printedPreview : Option Text
  cacheSaved : Bool
  attrsSaved : List (Text × Attr)
  seenSaved : List Text
  lastRunSaved : Option Text
  newlySeen : List Text
  resolvedKeys : List Text
deriving Repr, DecidableEq

/-- One execution of `main` after file discovery and parsing: `parsed` is
the list of successfully parsed records (in glob order), `diskReadme` the
current README file, `attrs0`/`seen0` the cache loaded by `loadCacheFile`,
`contributorsMd` the best-effort contributors block, `nowIso`/`nowUTC` the
two clock readings, `dry` the `--dry-run` flag. -/
def runPipeline (shaOf : Text → Option Text) (resolveO : Text → Option Attr)
    (parsed : List Rec) (diskReadme : Option Text)
    (attrs0 : List (Text × Attr)) (seen0 : List Text) (contributorsMd : Text)
    (nowIso nowUTC : Text) (dry : Bool) : RunOut :=
  let items := jsSortRecs parsed
  match buildTable shaOf resolveO items attrs0 seen0 nowIso with
  | .error _ =>
    { fatal := true, updatedDoc := [], finalDisk := diskReadme,
      backupWritten := false, docWritten := false, printedPreview := none,
      cacheSaved := false, attrsSaved := attrs0, seenSaved := seen0,
      lastRunSaved := none, newlySeen := [], resolvedKeys := [] }
  | .ok bt =>
    let block := headerBlock contributorsMd bt.table
    let readme := readReadme diskReadme
    let backup := !dry && diskReadme.isSome
    let updated := replaceBetweenMarkers readme block
    if dry then
      { fatal := false, updatedDoc := updated, finalDisk := diskReadme,
        backupWritten := false, docWritten := false,
        printedPreview := some updated, cacheSaved := bt.cacheSaved,
        attrsSaved := bt.attrsOut, seenSaved := bt.seenOut,
        lastRunSaved := bt.lastRunOut, newlySeen := bt.newlySeen,
        resolvedKeys := bt.resolvedKeys }
    else if updated == readme then
      { fatal := false, updatedDoc := updated, finalDisk := diskReadme,
        backupWritten := backup, docWritten := false, printedPreview := none,
        cacheSaved := bt.cacheSaved, attrsSaved := bt.attrsOut,
        seenSaved := bt.seenOut, lastRunSaved := bt.lastRunOut,
        newlySeen := bt.newlySeen, resolvedKeys := bt.resolvedKeys }
    else
      { fatal := false, updatedDoc := updated,
        finalDisk := some (jsTrimEnd (removeTrailingLastUpdated updated) ++
          lit "\n\n" ++ lit "\n_Last updated: " ++ nowUTC ++ lit "_\n"),
        backupWritten := backup, docWritten := true, printedPreview := none,
        cacheSaved := bt.cacheSaved, attrsSaved := bt.attrsOut,
        seenSaved := bt.seenOut, lastRunSaved := bt.lastRunOut,
        newlySeen := bt.newlySeen, resolvedKeys := bt.resolvedKeys }

/-! ## The attribution cache file -/

/-- JSON values (`JSON.parse`/`JSON.stringify` level). -/
inductive Json
  | null
  | bool (b : Bool)
  | num (n : Int)
  | str (s : Text)
  | arr (xs : List Json)
  | obj (fields : List (Text × Json))

/-- JavaScript truthiness of a parsed JSON value. -/
def jsTruthyJson : Json → Bool
  | .null => false
  | .bool b => b
  | .num n => decide (n ≠ 0)
  | .str s => decide (s ≠ [])
  | .arr _ => true
  | .obj _ => true

/-- `JSON.stringify` image of one in-memory attribution record: the three
identity keys always, `__resolved_from` when the resolution block ran, and
`__seen: true` when the new-marker block ran. -/
def attrToJson (a : Attr) : Json :=
  .obj
    ([(lit "login", match a.login with | none => Json.null | some s => Json.str s),
      (lit "avatar_url", Json.str a.avatar_url),
      (lit "html_url", Json.str a.html_url)] ++
     (match a.resolvedFrom with
      | none => []
      | some none => [(lit "__resolved_from", Json.null)]
      | some (some sha) => [(lit "__resolved_from", Json.str sha)]) ++
     (if a.seenFlag then [(lit "__seen", Json.bool true)] else []))

def metaToJson (seen : List Text) (lastRun : Option Text) : Json :=
  .obj [(lit "seen", .obj (seen.map fun k => (k, Json.bool true))),
        (lit "lastRun", match lastRun with | none => Json.null | some s => Json.str s)]

/-- `saveCacheFile(attrs, meta)`: the JSON written to
`.idea_attribution.json` — always the wrapper shape with `attrs` and
`meta` keys. -/
def saveCacheJson (attrs : List (Text × Attr)) (seen : List Text)
    (lastRun : Option Text) : Json :=
  .obj [(lit "attrs", .obj (attrs.map fun p => (p.1, attrToJson p.2))),
        (lit "meta", metaToJson seen lastRun)]

def defaultMetaJson : Json :=
  .obj [(lit "seen", .obj []), (lit "lastRun", Json.null)]

/-- `loadCacheFile` at the JSON level.  The argument is `none` for a
missing or blank file and `some parsed` otherwise; the result is the pair
of `attrs` and `meta` values the script proceeds with (wrapper shape when
the parsed object has a truthy `attrs` or `meta` key, otherwise the legacy
interpretation of the whole value as the mapping). -/
def loadCacheJson : Option Json → Json × Json
  | none => (.obj [], defaultMetaJson)
  | some parsed =>
    match parsed with
    | .obj fs =>
      let pa := alistLookup fs (lit "attrs")
      let pm := alistLookup fs (lit "meta")
      if (match pa with | some v => jsTruthyJson v | none => false) ||
          (match pm with | some v => jsTruthyJson v | none => false) then
        ((match pa with
          | some v => if jsTruthyJson v then v else Json.obj []
          | none => Json.obj []),
         (match pm with
          | some v => if jsTruthyJson v then v else defaultMetaJson
          | none => defaultMetaJson))
      else (parsed, defaultMetaJson)
    | _ => (parsed, defaultMetaJson)

/-- Structured reading of one attribution record back from its JSON image. -/
def attrOfJson (j : Json) : Option Attr :=
  match j with
  | .obj fs =>
    let loginOk : Option (Option Text) :=
      match alistLookup fs (lit "login") with
      | some Json.null => some none
      | some (Json.str s) => some (some s)
      | _ => none
    let avOk : Option Text :=
      match alistLookup fs (lit "avatar_url") with
      | some (Json.str s) => some s
      | _ => none
    let huOk : Option Text :=
      match alistLookup fs (lit "html_url") with
      | some (Json.str s) => some s
      | _ => none
    let rfOk : Option (Option (Option Text)) :=
      match alistLookup fs (lit "__resolved_from") with
      | none => some none
      | some Json.null => some (some none)
      | some (Json.str s) => some (some (some s))
      | _ => none
    let sfOk : Option Bool :=
      match alistLookup fs (lit "__seen") with
      | none => some false
      | some v => some (jsTruthyJson v)
    match loginOk, avOk, huOk, rfOk, sfOk with
    | some l, some av, some hu, some rf, some sf =>
      some { login := l, avatar_url := av, html_url := hu,
             resolvedFrom := rf, seenFlag := sf }
    | _, _, _, _, _ => none
  | _ => none

def attrEntriesOfJson : List (Text × Json) → Option (List (Text × Attr))
  | [] => some []
  | (k, v) :: t =>
    match attrOfJson v, attrEntriesOfJson t with
    | some a, some l => some ((k, a) :: l)
    | _, _ => none

/-- The seen set the script derives from the `meta.seen` object: the keys
with truthy values. -/
def seenOfJson : Json → Option (List Text)
  | Json.null => some []
  | .obj fs =>
    some (fs.filterMap fun p => if jsTruthyJson p.2 then some p.1 else none)
  | _ => none

def metaOfJson (j : Json) : Option (List Text × Option Text) :=
  match j with
  | .obj fs =>
    let seenOk : Option (List Text) :=
      match alistLookup fs (lit "seen") with
      | none => some []
      | some v => seenOfJson v
    let lastOk : Option (Option Text) :=
      match alistLookup fs (lit "lastRun") with
      | none => some none
      | some Json.null => some none
      | some (Json.str s) => some (some s)
      | _ => none
    match seenOk, lastOk with
    | some seen, some lastRun => some (seen, lastRun)
    | _, _ => none
  | _ => none

/-- `loadCacheFile` composed with the structured reading: the in-memory
mapping and metadata a later run starts from. -/
def loadCacheStructured (file : Option Json) :
    Option (List (Text × Attr) × List Text × Option Text) :=
  let p := loadCacheJson file
  match (match p.1 with | .obj fs => attrEntriesOfJson fs | _ => none),
      metaOfJson p.2 with
  | some attrs, some (seen, lastRun) => some (attrs, seen, lastRun)
  | _, _ => none

theorem attrOfJson_attrToJson (a : Attr) : attrOfJson (attrToJson a) = some a := by
  obtain ⟨l, av, hu, rf, sf⟩ := a
  rcases l with _ | l <;> rcases rf with _ | (_ | rf) <;> rcases sf <;> rfl

theorem attrEntriesOfJson_roundtrip (l : List (Text × Attr)) :
    attrEntriesOfJson (l.map fun p => (p.1, attrToJson p.2)) = some l := by
  induction l with
  | nil => rfl
  | cons p t ih =>
    simp only [List.map_cons, attrEntriesOfJson, attrOfJson_attrToJson, ih]

theorem seenOfJson_roundtrip (seen : List Text) :
    seenOfJson (Json.obj (seen.map fun k => (k, Json.bool true))) = some seen := by
  have key : ∀ (l : List Text),
      List.filterMap
        (fun p : Text × Json => if jsTruthyJson p.2 then some p.1 else none)
        (l.map fun k => (k, Json.bool true)) = l := by
    intro l
    induction l with
    | nil => rfl
    | cons k t ih =>
      have hstep :
          (fun p : Text × Json => if jsTruthyJson p.2 then some p.1 else none)
            (k, Json.bool true) = some k := rfl
      simp only [List.map_cons, List.filterMap_cons, hstep, ih]
  simp only [seenOfJson]
  rw [key]

/-- Cache round-trip at the file level: `saveCacheFile` followed by
`loadCacheFile` reproduces the same mapping, seen set and metadata. -/
theorem cache_roundtrip (attrs : List (Text × Attr)) (seen : List Text)
    (lastRun : Option Text) :
    loadCacheStructured (some (saveCacheJson attrs seen lastRun)) =
      some (attrs, seen, lastRun) := by
  have h1 : (loadCacheJson (some (saveCacheJson attrs seen lastRun))).1 =
      Json.obj (attrs.map fun p => (p.1, attrToJson p.2)) := rfl
  have h2 : (loadCacheJson (some (saveCacheJson attrs seen lastRun))).2 =
      metaToJson seen lastRun := rfl
  have hmeta : metaOfJson (metaToJson seen lastRun) = some (seen, lastRun) := by
    rcases lastRun with _ | s <;>
      simp [metaOfJson, metaToJson, alistLookup, seenOfJson_roundtrip, lit]
  simp only [loadCacheStructured, h1, h2, attrEntriesOfJson_roundtrip, hmeta]

/-! ## Infrastructure lemmas on the association-list and seen-set operations -/

theorem alistLookup_alistSet_self {α : Type} (m : List (Text × α)) (k : Text)
    (v : α) : alistLookup (alistSet m k v) k = some v := by
  induction m with
  | nil => simp [alistSet, alistLookup]
  | cons p t ih =>
    obtain ⟨k2, v2⟩ := p
    by_cases h : k2 = k
    · subst h
      simp [alistSet, alistLookup]
    · simp [alistSet, alistLookup, h, ih]

theorem alistLookup_alistSet_ne {α : Type} (m : List (Text × α)) (k k2 : Text)
    (v : α) (h : k2 ≠ k) :
    alistLookup (alistSet m k v) k2 = alistLookup m k2 := by
  have hk : ¬ k = k2 := fun hh => h hh.symm
  induction m with
  | nil => simp [alistSet, alistLookup, hk]
  | cons p t ih =>
    obtain ⟨k3, v3⟩ := p
    by_cases h3 : k3 = k
    · subst h3
      simp [alistSet, alistLookup, hk]
    · by_cases h4 : k3 = k2 <;> simp [alistSet, alistLookup, h, h3, h4, ih]

theorem alistLookup_setSeenFlag_self (m : List (Text × Attr)) (k : Text) :
    alistLookup (setSeenFlag m k) k =
      (alistLookup m k).map fun a => { a with seenFlag := true } := by
  unfold setSeenFlag
  cases h : alistLookup m k with
  | none => simp [h]
  | some a => simp [alistLookup_alistSet_self]

theorem alistLookup_setSeenFlag_ne (m : List (Text × Attr)) (k k2 : Text)
    (h : k2 ≠ k) : alistLookup (setSeenFlag m k) k2 = alistLookup m k2 := by
  unfold setSeenFlag
  cases h2 : alistLookup m k with
  | none => rfl
  | some a => simp [alistLookup_alistSet_ne _ _ _ _ h]

theorem seenHas_seenAdd_self (s : List Text) (k : Text) :
    seenHas (seenAdd s k) k = true := by
  by_cases h : k ∈ s <;> simp [seenAdd, seenHas, h]

theorem seenHas_seenAdd_ne (s : List Text) (k k2 : Text) (h : k2 ≠ k) :
    seenHas (seenAdd s k) k2 = seenHas s k2 := by
  by_cases hm : k ∈ s <;> simp [seenAdd, seenHas, hm, h]

theorem seenHas_append (s t : List Text) (k : Text) :
    seenHas (s ++ t) k = (seenHas s k || seenHas t k) := by
  simp [seenHas, List.mem_append]

/-! ## Pointwise characterisation of the table-builder loop -/

/-- Value of the cache entry for `key` after the conditional resolution
block, as a function of its value before the loop reached it. -/
def stepAttrOf (shaOf : Text → Option Text) (resolveO : Text → Option Attr)
    (key : Text) (a0 : Option Attr) : Attr :=
  match a0 with
  | some a => if loginTruthy a then a else resolveViaNetwork shaOf resolveO key
  | none => resolveViaNetwork shaOf resolveO key

/-- Value of the cache entry for `key` at the end of its loop iteration
(the resolution block plus the `__seen` write for new records). -/
def stepAttrFull (shaOf : Text → Option Text) (resolveO : Text → Option Attr)
    (key : Text) (a0 : Option Attr) (isNew : Bool) : Attr :=
  let a1 := stepAttrOf shaOf resolveO key a0
  if isNew then { a1 with seenFlag := true } else a1

theorem stepAttrOf_idem (shaOf : Text → Option Text)
    (resolveO : Text → Option Attr) (key : Text) (a0 : Option Attr) :
    stepAttrOf shaOf resolveO key (some (stepAttrOf shaOf resolveO key a0)) =
      stepAttrOf shaOf resolveO key a0 := by
  unfold stepAttrOf
  cases a0 with
  | none =>
    by_cases h : loginTruthy (resolveViaNetwork shaOf resolveO key) <;> simp [h]
  | some a =>
    by_cases h : loginTruthy a
    · simp [h]
    · by_cases h2 : loginTruthy (resolveViaNetwork shaOf resolveO key) <;>
        simp [h, h2]

/-- The non-throwing value of the created-date cell (equal to
`renderCreatedCell` whenever the latter does not throw). -/
def createdCellTotal (cd : Option (Option DateV)) : Text :=
  match cd with
  | some (some d) => d.isoDate10
  | _ => lit "—"

/-- The row the loop emits for `it`, as a function of the state the loop
was in when it reached `it` (valid for runs whose records never throw). -/
def rowOfInit (shaOf : Text → Option Text) (resolveO : Text → Option Attr)
    (attrs : List (Text × Attr)) (seen : List Text) (it : Rec) : Text :=
  let key := it.path
  let isNew := !(effSeen attrs seen key)
  let a := stepAttrFull shaOf resolveO key (alistLookup attrs key) isNew
  let project := lit "[" ++ it.project_name ++ lit "](" ++ key ++ lit ")"
  lit "| " ++ (if isNew then lit "✨ " ++ project else project) ++ lit " | " ++
    it.focus_area ++ lit " | " ++ truncate it.description 110 ++ lit " | " ++
    truncate it.impact 70 ++ lit " | " ++ renderSubmitterCell (some a) ++
    lit " | " ++ createdCellTotal it.created_dt ++ lit " |"

/-- The `isNew` test of the loop iteration for `it` in state `st`. -/
def itemIsNew (st : BTState) (it : Rec) : Bool :=
  !(effSeen st.attrs st.seen it.path)

/-- Everything one loop iteration does to the state, expressed against the
state at the start of that iteration. -/
structure StepFacts (shaOf : Text → Option Text) (resolveO : Text → Option Attr)
    (st st2 : BTState) (it : Rec) : Prop where
  seen_eq : st2.seen = st.seen ++ (if itemIsNew st it then [it.path] else [])
  newly_eq : st2.newlySeen =
    st.newlySeen ++ (if itemIsNew st it then [it.path] else [])
  resolved_eq : st2.resolvedKeys =
    st.resolvedKeys ++ (if cachedLoginTruthy st.attrs it.path then [] else [it.path])
  rows_eq : st2.rows = st.rows ++ [rowOfInit shaOf resolveO st.attrs st.seen it]
  cat_eq : st2.catCount = bumpCount st.catCount it.focus_area
  attrs_self : alistLookup st2.attrs it.path =
    some (stepAttrFull shaOf resolveO it.path (alistLookup st.attrs it.path)
      (itemIsNew st it))
  attrs_other : ∀ k2, k2 ≠ it.path →
    alistLookup st2.attrs k2 = alistLookup st.attrs k2

theorem stepAttrOf_of_not_truthy (shaOf : Text → Option Text)
    (resolveO : Text → Option Attr) (attrs : List (Text × Attr)) (k : Text)
    (h : cachedLoginTruthy attrs k = false) :
    stepAttrOf shaOf resolveO k (alistLookup attrs k) =
      resolveViaNetwork shaOf resolveO k := by
  unfold cachedLoginTruthy at h
  unfold stepAttrOf
  cases hl : alistLookup attrs k with
  | none => rfl
  | some a =>
    rw [hl] at h
    have h2 : loginTruthy a = false := h
    simp [h2]

theorem cachedLoginTruthy_some (shaOf : Text → Option Text)
    (resolveO : Text → Option Attr) (attrs : List (Text × Attr)) (k : Text)
    (h : cachedLoginTruthy attrs k = true) :
    ∃ a, alistLookup attrs k = some a ∧ loginTruthy a = true ∧
      stepAttrOf shaOf resolveO k (alistLookup attrs k) = a := by
  unfold cachedLoginTruthy at h
  cases hl : alistLookup attrs k with
  | none => rw [hl] at h; cases h
  | some a =>
    rw [hl] at h
    have h2 : loginTruthy a = true := h
    exact ⟨a, rfl, h2, by simp [stepAttrOf, h2]⟩

theorem processItem_ok_facts (shaOf : Text → Option Text)
    (resolveO : Text → Option Attr) (st st2 : BTState) (it : Rec)
    (h : processItem shaOf resolveO st it = .ok st2) :
    StepFacts shaOf resolveO st st2 it := by
  have hnotin : effSeen st.attrs st.seen it.path = false →
      ¬ (it.path ∈ st.seen) := by
    intro he hm
    simp only [effSeen, seenHas] at he
    simp [hm] at he
  have hattrs : ∀ (A : List (Text × Attr)),
      A = (if (!effSeen st.attrs st.seen it.path) = true then
            setSeenFlag
              (if (!cachedLoginTruthy st.attrs it.path) = true then
                alistSet st.attrs it.path (resolveViaNetwork shaOf resolveO it.path)
              else st.attrs)
              it.path
          else
            if (!cachedLoginTruthy st.attrs it.path) = true then
              alistSet st.attrs it.path (resolveViaNetwork shaOf resolveO it.path)
            else st.attrs) →
      alistLookup A it.path =
        some (stepAttrFull shaOf resolveO it.path (alistLookup st.attrs it.path)
          (itemIsNew st it)) ∧
      ∀ k2, k2 ≠ it.path → alistLookup A k2 = alistLookup st.attrs k2 := by
    intro A hA
    subst hA
    cases he : effSeen st.attrs st.seen it.path <;>
      cases ht : cachedLoginTruthy st.attrs it.path
    · have hin : itemIsNew st it = true := by simp [itemIsNew, he]
      simp only [Bool.not_false, if_true]
      constructor
      · rw [alistLookup_setSeenFlag_self, alistLookup_alistSet_self, hin]
        simp only [stepAttrFull, if_true]
        rw [stepAttrOf_of_not_truthy _ _ _ _ ht]
        rfl
      · intro k2 hk2
        rw [alistLookup_setSeenFlag_ne _ _ _ hk2,
          alistLookup_alistSet_ne _ _ _ _ hk2]
    · have hin : itemIsNew st it = true := by simp [itemIsNew, he]
      obtain ⟨a, hl, htr, hstep⟩ :=
        cachedLoginTruthy_some shaOf resolveO st.attrs it.path ht
      simp only [Bool.not_false, Bool.not_true, if_true, Bool.false_eq_true,
        if_false]
      constructor
      · rw [alistLookup_setSeenFlag_self, hin]
        simp only [stepAttrFull, if_true]
        rw [hstep, hl]
        rfl
      · intro k2 hk2
        rw [alistLookup_setSeenFlag_ne _ _ _ hk2]
    · have hin : itemIsNew st it = false := by simp [itemIsNew, he]
      simp only [Bool.not_false, Bool.not_true, if_true, Bool.false_eq_true,
        if_false]
      constructor
      · rw [alistLookup_alistSet_self, hin]
        simp only [stepAttrFull, Bool.false_eq_true, if_false]
        rw [stepAttrOf_of_not_truthy _ _ _ _ ht]
      · intro k2 hk2
        rw [alistLookup_alistSet_ne _ _ _ _ hk2]
    · have hin : itemIsNew st it = false := by simp [itemIsNew, he]
      obtain ⟨a, hl, htr, hstep⟩ :=
        cachedLoginTruthy_some shaOf resolveO st.attrs it.path ht
      simp only [Bool.not_true, Bool.false_eq_true, if_false]
      constructor
      · rw [hin]
        simp only [stepAttrFull, Bool.false_eq_true, if_false]
        rw [hstep]
        exact hl
      · intro k2 hk2
        trivial
  unfold processItem at h
  rcases hcd : it.created_dt with _ | cd
  case none =>
    rw [hcd] at h
    simp only [renderCreatedCell] at h
    injection h with h
    subst h
    obtain ⟨hself, hother⟩ := hattrs _ rfl
    refine ⟨?_, ?_, ?_, ?_, rfl, hself, hother⟩
    · cases he : effSeen st.attrs st.seen it.path
      · have hin : itemIsNew st it = true := by simp [itemIsNew, he]
        rw [hin]
        simp only [Bool.not_false, if_true, seenAdd]
        rw [if_neg (by simpa using hnotin he)]
      · have hin : itemIsNew st it = false := by simp [itemIsNew, he]
        rw [hin]
        simp only [Bool.not_true, Bool.false_eq_true, if_false]
        simp
    · cases he : effSeen st.attrs st.seen it.path
      · have hin : itemIsNew st it = true := by simp [itemIsNew, he]
        rw [hin]
        simp only [Bool.not_false, if_true]
      · have hin : itemIsNew st it = false := by simp [itemIsNew, he]
        rw [hin]
        simp only [Bool.not_true, Bool.false_eq_true, if_false]
        simp
    · cases ht : cachedLoginTruthy st.attrs it.path
      · simp only [Bool.not_false, if_true, Bool.false_eq_true, if_false]
      · simp only [Bool.not_true, Bool.false_eq_true, if_false, if_true]
        simp
    · rw [hself]
      simp only [rowOfInit, itemIsNew, hcd, createdCellTotal]
  case some =>
    rcases cd with _ | d
    · rw [hcd] at h
      simp only [renderCreatedCell] at h
      cases h
    · rw [hcd] at h
      simp only [renderCreatedCell] at h
      injection h with h
      subst h
      obtain ⟨hself, hother⟩ := hattrs _ rfl
      refine ⟨?_, ?_, ?_, ?_, rfl, hself, hother⟩
      · cases he : effSeen st.attrs st.seen it.path
        · have hin : itemIsNew st it = true := by simp [itemIsNew, he]
          rw [hin]
          simp only [Bool.not_false, if_true, seenAdd]
          rw [if_neg (by simpa using hnotin he)]
        · have hin : itemIsNew st it = false := by simp [itemIsNew, he]
          rw [hin]
          simp only [Bool.not_true, Bool.false_eq_true, if_false]
          simp
      · cases he : effSeen st.attrs st.seen it.path
        · have hin : itemIsNew st it = true := by simp [itemIsNew, he]
          rw [hin]
          simp only [Bool.not_false, if_true]
        · have hin : itemIsNew st it = false := by simp [itemIsNew, he]
          rw [hin]
          simp only [Bool.not_true, Bool.false_eq_true, if_false]
          simp
      · cases ht : cachedLoginTruthy st.attrs it.path
        · simp only [Bool.not_false, if_true, Bool.false_eq_true, if_false]
        · simp only [Bool.not_true, Bool.false_eq_true, if_false, if_true]
          simp
      · rw [hself]
        simp only [rowOfInit, itemIsNew, hcd, createdCellTotal]

theorem processItem_ok_of_valid (shaOf : Text → Option Text)
    (resolveO : Text → Option Attr) (st : BTState) (it : Rec)
    (hvalid : it.created_dt ≠ some none) :
    ∃ st2, processItem shaOf resolveO st it = .ok st2 := by
  unfold processItem
  rcases hcd : it.created_dt with _ | cd
  · simp only [renderCreatedCell]
    exact ⟨_, rfl⟩
  · rcases cd with _ | d
    · exact absurd hcd hvalid
    · simp only [renderCreatedCell]
      exact ⟨_, rfl⟩

theorem effSeen_congr (a1 a2 : List (Text × Attr)) (s1 s2 : List Text) (k : Text)
    (ha : alistLookup a1 k = alistLookup a2 k)
    (hs : seenHas s1 k = seenHas s2 k) :
    effSeen a1 s1 k = effSeen a2 s2 k := by
  simp [effSeen, ha, hs]

theorem cachedLoginTruthy_congr (a1 a2 : List (Text × Attr)) (k : Text)
    (ha : alistLookup a1 k = alistLookup a2 k) :
    cachedLoginTruthy a1 k = cachedLoginTruthy a2 k := by
  simp [cachedLoginTruthy, ha]

theorem rowOfInit_congr (shaOf : Text → Option Text)
    (resolveO : Text → Option Attr) (a1 a2 : List (Text × Attr))
    (s1 s2 : List Text) (it : Rec)
    (ha : alistLookup a1 it.path = alistLookup a2 it.path)
    (hs : seenHas s1 it.path = seenHas s2 it.path) :
    rowOfInit shaOf resolveO a1 s1 it = rowOfInit shaOf resolveO a2 s2 it := by
  simp only [rowOfInit]
  rw [effSeen_congr a1 a2 s1 s2 it.path ha hs, ha]

theorem seenHas_if_singleton (b : Bool) (k p : Text) (hne : p ≠ k) :
    seenHas (if b then [k] else []) p = false := by
  cases b <;> simp [seenHas, hne]

/-- Aggregate characterisation of the loop over a list of records with
pairwise-distinct paths and no invalid dates: everything is determined
pointwise by the state the loop started in. -/
theorem processItems_facts (shaOf : Text → Option Text)
    (resolveO : Text → Option Attr) (items : List Rec) (st : BTState)
    (hvalid : ∀ r ∈ items, r.created_dt ≠ some none)
    (hnd : (items.map Rec.path).Nodup) :
    ∃ stf, processItems shaOf resolveO items st = .ok stf ∧
      stf.seen = st.seen ++ (items.filter fun it => itemIsNew st it).map Rec.path ∧
      stf.newlySeen =
        st.newlySeen ++ (items.filter fun it => itemIsNew st it).map Rec.path ∧
      stf.resolvedKeys = st.resolvedKeys ++
        (items.filter fun it => !cachedLoginTruthy st.attrs it.path).map Rec.path ∧
      stf.rows = st.rows ++ items.map (rowOfInit shaOf resolveO st.attrs st.seen) ∧
      stf.catCount =
        items.foldl (fun m it => bumpCount m it.focus_area) st.catCount ∧
      (∀ it ∈ items, alistLookup stf.attrs it.path =
        some (stepAttrFull shaOf resolveO it.path (alistLookup st.attrs it.path)
          (itemIsNew st it))) ∧
      (∀ k, k ∉ items.map Rec.path →
        alistLookup stf.attrs k = alistLookup st.attrs k) := by
  induction items generalizing st with
  | nil =>
    refine ⟨st, rfl, by simp, by simp, by simp, by simp, by simp, ?_, ?_⟩
    · intro it h
      cases h
    · intro k h
      rfl
  | cons head rest ih =>
    obtain ⟨st1, hok⟩ := processItem_ok_of_valid shaOf resolveO st head
      (hvalid head (List.mem_cons_self head rest))
    have facts := processItem_ok_facts shaOf resolveO st st1 head hok
    have hndrest : (rest.map Rec.path).Nodup := by
      simp only [List.map_cons, List.nodup_cons] at hnd
      exact hnd.2
    have hheadnot : head.path ∉ rest.map Rec.path := by
      simp only [List.map_cons, List.nodup_cons] at hnd
      exact hnd.1
    have hne : ∀ it ∈ rest, it.path ≠ head.path := by
      intro it hm hcon
      exact hheadnot (hcon ▸ List.mem_map_of_mem Rec.path hm)
    -- state transfer for the members of `rest`
    have htransA : ∀ it ∈ rest,
        alistLookup st1.attrs it.path = alistLookup st.attrs it.path := by
      intro it hm
      exact facts.attrs_other it.path (hne it hm)
    have htransS : ∀ it ∈ rest,
        seenHas st1.seen it.path = seenHas st.seen it.path := by
      intro it hm
      rw [facts.seen_eq, seenHas_append,
        seenHas_if_singleton _ _ _ (hne it hm)]
      simp
    have htransNew : ∀ it ∈ rest, itemIsNew st1 it = itemIsNew st it := by
      intro it hm
      simp only [itemIsNew]
      rw [effSeen_congr _ _ _ _ _ (htransA it hm) (htransS it hm)]
    have htransRes : ∀ it ∈ rest,
        cachedLoginTruthy st1.attrs it.path = cachedLoginTruthy st.attrs it.path := by
      intro it hm
      exact cachedLoginTruthy_congr _ _ _ (htransA it hm)
    obtain ⟨stf, hrun, A1, A2, A3, A4, A5, A6, A7⟩ := ih st1
      (fun r hm => hvalid r (List.mem_cons_of_mem head hm)) hndrest
    refine ⟨stf, ?_, ?_, ?_, ?_, ?_, ?_, ?_, ?_⟩
    · simp only [processItems, hok, hrun]
    · rw [A1, facts.seen_eq]
      rw [List.filter_congr (fun it hm => by rw [htransNew it hm])]
      cases hb : itemIsNew st head <;>
        simp [hb, List.filter_cons, List.append_assoc]
    · rw [A2, facts.newly_eq]
      rw [List.filter_congr (fun it hm => by rw [htransNew it hm])]
      cases hb : itemIsNew st head <;>
        simp [hb, List.filter_cons, List.append_assoc]
    · rw [A3, facts.resolved_eq]
      rw [List.filter_congr (fun it hm => by rw [htransRes it hm])]
      cases hb : cachedLoginTruthy st.attrs head.path <;>
        simp [hb, List.filter_cons, List.append_assoc]
    · rw [A4, facts.rows_eq]
      rw [List.map_congr_left (fun it hm =>
        rowOfInit_congr shaOf resolveO _ _ _ _ it (htransA it hm) (htransS it hm))]
      simp [List.append_assoc]
    · rw [A5, facts.cat_eq]
      simp [List.foldl_cons]
    · intro it hm
      rcases List.mem_cons.1 hm with hm | hm
      · subst hm
        rw [A7 it.path hheadnot, facts.attrs_self]
      · rw [A6 it hm, htransA it hm, htransNew it hm]
    · intro k hk
      have hk1 : k ∉ rest.map Rec.path := fun hm =>
        hk (List.mem_cons_of_mem _ hm)
      have hk2 : k ≠ head.path := fun hh =>
        hk (hh ▸ List.mem_cons_self _ _)
      rw [A7 k hk1, facts.attrs_other k hk2]

theorem loginTruthy_setFlag (a : Attr) (b : Bool) :
    loginTruthy { a with seenFlag := b } = loginTruthy a := rfl

theorem cachedLoginTruthy_stepAttrFull (shaOf : Text → Option Text)
    (resolveO : Text → Option Attr) (attrs : List (Text × Attr)) (k : Text)
    (b : Bool) (h : cachedLoginTruthy attrs k = true) :
    loginTruthy (stepAttrFull shaOf resolveO k (alistLookup attrs k) b) = true := by
  obtain ⟨a, hl, htr, hstep⟩ := cachedLoginTruthy_some shaOf resolveO attrs k h
  unfold stepAttrFull
  rw [hstep]
  cases b
  · simpa using htr
  · simpa [loginTruthy_setFlag] using htr

theorem processItems_seen_mono (shaOf : Text → Option Text)
    (resolveO : Text → Option Attr) :
    ∀ (items : List Rec) (st stf : BTState),
      processItems shaOf resolveO items st = .ok stf →
      ∀ k, seenHas st.seen k = true → seenHas stf.seen k = true := by
  intro items
  induction items with
  | nil =>
    intro st stf h k hk
    injection h with h
    exact h ▸ hk
  | cons head rest ih =>
    intro st stf h k hk
    simp only [processItems] at h
    cases hok : processItem shaOf resolveO st head with
    | error e => rw [hok] at h; cases h
    | ok st1 =>
      rw [hok] at h
      have facts := processItem_ok_facts shaOf resolveO st st1 head hok
      refine ih st1 stf h k ?_
      rw [facts.seen_eq, seenHas_append, hk]
      rfl

theorem processItems_no_new_when_seen (shaOf : Text → Option Text)
    (resolveO : Text → Option Attr) :
    ∀ (items : List Rec) (st stf : BTState),
      processItems shaOf resolveO items st = .ok stf →
      ∀ k, seenHas st.seen k = true → k ∈ stf.newlySeen → k ∈ st.newlySeen := by
  intro items
  induction items with
  | nil =>
    intro st stf h k hk hm
    injection h with h
    exact h ▸ hm
  | cons head rest ih =>
    intro st stf h k hk hm
    simp only [processItems] at h
    cases hok : processItem shaOf resolveO st head with
    | error e => rw [hok] at h; cases h
    | ok st1 =>
      rw [hok] at h
      have facts := processItem_ok_facts shaOf resolveO st st1 head hok
      have hk1 : seenHas st1.seen k = true := by
        rw [facts.seen_eq, seenHas_append, hk]
        rfl
      have hm1 := ih st1 stf h k hk1 hm
      rw [facts.newly_eq] at hm1
      rcases List.mem_append.1 hm1 with hm1 | hm1
      · exact hm1
      · exfalso
        cases hb : itemIsNew st head with
        | false => rw [hb] at hm1; simp at hm1
        | true =>
          rw [hb] at hm1
          simp only [if_true, List.mem_singleton] at hm1
          subst hm1
          have hef2 : effSeen st.attrs st.seen head.path = false := by
            simp only [itemIsNew] at hb
            cases hef : effSeen st.attrs st.seen head.path
            · rfl
            · rw [hef] at hb; cases hb
          simp [effSeen, hk] at hef2

theorem processItems_truthy_preserved (shaOf : Text → Option Text)
    (resolveO : Text → Option Attr) :
    ∀ (items : List Rec) (st stf : BTState),
      processItems shaOf resolveO items st = .ok stf →
      ∀ k, cachedLoginTruthy st.attrs k = true →
        cachedLoginTruthy stf.attrs k = true ∧
          (k ∈ stf.resolvedKeys → k ∈ st.resolvedKeys) := by
  intro items
  induction items with
  | nil =>
    intro st stf h k hk
    injection h with h
    subst h
    exact ⟨hk, fun hm => hm⟩
  | cons head rest ih =>
    intro st stf h k hk
    simp only [processItems] at h
    cases hok : processItem shaOf resolveO st head with
    | error e => rw [hok] at h; cases h
    | ok st1 =>
      rw [hok] at h
      have facts := processItem_ok_facts shaOf resolveO st st1 head hok
      have hk1 : cachedLoginTruthy st1.attrs k = true := by
        by_cases hkp : k = head.path
        · subst hkp
          unfold cachedLoginTruthy
          rw [facts.attrs_self]
          exact cachedLoginTruthy_stepAttrFull shaOf resolveO st.attrs head.path _ hk
        · unfold cachedLoginTruthy
          rw [facts.attrs_other k hkp]
          exact hk
      obtain ⟨hc, hres⟩ := ih st1 stf h k hk1
      refine ⟨hc, fun hm => ?_⟩
      have hm1 := hres hm
      rw [facts.resolved_eq] at hm1
      rcases List.mem_append.1 hm1 with hm1 | hm1
      · exact hm1
      · exfalso
        by_cases hkp : k = head.path
        · subst hkp
          rw [hk] at hm1
          simp at hm1
        · cases hb : cachedLoginTruthy st.attrs head.path <;> rw [hb] at hm1 <;>
            simp [hkp] at hm1

/-! ## Sort lemmas -/

theorem insertSorted_perm (a : Rec) (l : List Rec) :
    List.Perm (insertSorted a l) (a :: l) := by
  induction l with
  | nil => rfl
  | cons b t ih =>
    unfold insertSorted
    by_cases h : recBefore a b
    · rw [if_pos h]
    · rw [if_neg h]
      exact ((ih.cons b).trans (List.Perm.swap a b t)).symm.symm

theorem jsSortRecs_perm (l : List Rec) : List.Perm (jsSortRecs l) l := by
  induction l with
  | nil => rfl
  | cons a t ih =>
    exact (insertSorted_perm a (jsSortRecs t)).trans (ih.cons a)

theorem mem_jsSortRecs (l : List Rec) (r : Rec) :
    r ∈ jsSortRecs l ↔ r ∈ l :=
  (jsSortRecs_perm l).mem_iff

/-- Comparison key for records without an invalid date: the epoch value,
with `⊥` for a null date (records with an invalid date crash the run and
are excluded by hypothesis wherever this key is used; they are mapped to
`⊥` only to keep the function total). -/
def okKey (r : Rec) : WithBot Int :=
  match r.created_dt with
  | none => ⊥
  | some none => ⊥
  | some (some d) => (d.getTimeMs : WithBot Int)

theorem recBefore_iff_okKey (a b : Rec) (ha : a.created_dt ≠ some none)
    (hb : b.created_dt ≠ some none) :
    recBefore a b = decide (okKey b ≤ okKey a) := by
  rcases hca : a.created_dt with _ | ca
  · rcases hcb : b.created_dt with _ | cb
    · simp [recBefore, jsCompareSign, recSortKey, okKey, hca, hcb]
    · rcases cb with _ | db
      · exact absurd hcb hb
      · simp [recBefore, jsCompareSign, recSortKey, okKey, hca, hcb]
  · rcases ca with _ | da
    · exact absurd hca ha
    · rcases hcb : b.created_dt with _ | cb
      · simp [recBefore, jsCompareSign, recSortKey, okKey, hca, hcb]
      · rcases cb with _ | db
        · exact absurd hcb hb
        · simp only [recBefore, jsCompareSign, recSortKey, okKey, hca, hcb]
          rw [decide_eq_decide]
          constructor
          · intro h
            exact WithBot.coe_le_coe.2 (by omega)
          · intro h
            have := WithBot.coe_le_coe.1 h
            omega

/-- The pairwise descending-order relation the sorted list satisfies. -/
def keyGE (x y : Rec) : Prop := okKey y ≤ okKey x

theorem insertSorted_pairwise (a : Rec) (l : List Rec)
    (ha : a.created_dt ≠ some none) (hl : ∀ r ∈ l, r.created_dt ≠ some none)
    (hp : l.Pairwise keyGE) : (insertSorted a l).Pairwise keyGE := by
  induction l with
  | nil => simp [insertSorted]
  | cons b t ih =>
    unfold insertSorted
    by_cases h : recBefore a b = true
    · rw [if_pos h]
      rw [recBefore_iff_okKey a b ha (hl b (List.mem_cons_self b t))] at h
      have hba : okKey b ≤ okKey a := of_decide_eq_true h
      refine List.Pairwise.cons ?_ hp
      intro y hy
      rcases List.mem_cons.1 hy with hy | hy
      · exact hy ▸ hba
      · have := (List.pairwise_cons.1 hp).1 y hy
        exact le_trans this hba
    · rw [if_neg h]
      rw [recBefore_iff_okKey a b ha (hl b (List.mem_cons_self b t))] at h
      have hab : okKey a ≤ okKey b := by
        rcases le_total (okKey b) (okKey a) with hc | hc
        · exact absurd (decide_eq_true hc) h
        · exact hc
      have hpt := List.pairwise_cons.1 hp
      refine List.Pairwise.cons ?_ (ih (fun r hr => hl r (List.mem_cons_of_mem b hr)) hpt.2)
      intro y hy
      have hy2 := (insertSorted_perm a t).mem_iff.1 hy
      rcases List.mem_cons.1 hy2 with hy2 | hy2
      · exact hy2 ▸ hab
      · exact hpt.1 y hy2

theorem jsSortRecs_pairwise (l : List Rec)
    (hl : ∀ r ∈ l, r.created_dt ≠ some none) :
    (jsSortRecs l).Pairwise keyGE := by
  induction l with
  | nil => simp [jsSortRecs]
  | cons a t ih =>
    unfold jsSortRecs
    refine insertSorted_pairwise a (jsSortRecs t)
      (hl a (List.mem_cons_self a t)) ?_
      (ih fun r hr => hl r (List.mem_cons_of_mem a hr))
    intro r hr
    exact hl r (List.mem_cons_of_mem a ((jsSortRecs_perm t).mem_iff.1 hr))

theorem pairwise_getLast_min : ∀ (l : List Rec) (z : Rec),
    l.getLast? = some z → l.Pairwise keyGE →
    ∀ y ∈ l, y = z ∨ okKey z ≤ okKey y := by
  intro l
  induction l with
  | nil => intro z hz; cases hz
  | cons x t ih =>
    intro z hz hp y hy
    cases t with
    | nil =>
      simp only [List.getLast?_singleton] at hz
      injection hz with hz
      rcases List.mem_singleton.1 hy with hy
      left
      rw [hy, hz]
    | cons b t2 =>
      have hz2 : (b :: t2).getLast? = some z := by
        rw [← hz]
        rfl
      have hp2 := List.pairwise_cons.1 hp
      rcases List.mem_cons.1 hy with hy | hy
      · right
        subst hy
        have hzmem : z ∈ b :: t2 := by
          obtain ⟨hne2, hzl⟩ := List.mem_getLast?_eq_getLast hz2
          rw [hzl]
          exact List.getLast_mem hne2
        exact hp2.1 z hzmem
      · exact ih z hz2 hp2.2 y hy

/-! ## Concrete fixtures -/

def noShaOracle : Text → Option Text := fun _ => none

def noResolveOracle : Text → Option Attr := fun _ => none

def sampleRec : Rec :=
  { project_name := lit "EcoTrack",
    focus_area := lit "🌱 Sustainability and Decarbonization",
    description := lit "track waste", impact := lit "less waste",
    created_dt := some (jsDateParse (lit "2025-10-31T10:00:00Z")),
    created_raw := lit "2025-10-31 10:00:00", path := lit "update/x1.xml" }

def sampleReadme : Text := lit "A\n<!-- ideas:start -->\nold\n<!-- ideas:end -->\nB"

theorem occ_lt_length (pat t : Text) (n : Nat) (hne : pat ≠ [])
    (h : pat.isPrefixOf (t.drop n) = true) : n < t.length := by
  by_contra hcon
  push_neg at hcon
  rw [List.drop_eq_nil_of_le hcon] at h
  cases pat with
  | nil => exact hne rfl
  | cons c p => simp [List.isPrefixOf] at h

/-! ## The claims -/

/-- C1: the claim says a `--dry-run` performs no filesystem mutation at all
(document, backup and attribution cache untouched, document printed
instead).  The code violates this: `saveCacheFile` runs unconditionally
inside `buildTable`, so a dry run with at least one parsed record still
rewrites `.idea_attribution.json` — while the README and its backup are
indeed untouched and the preview is printed.  This theorem evaluates the
pipeline at such a failing input. -/
theorem c1_dry_run_still_writes_cache :
    (runPipeline noShaOracle noResolveOracle [sampleRec] (some sampleReadme)
      [] [] [] (lit "2025-11-01T00:00:00.000Z")
      (lit "Sat, 01 Nov 2025 00:00:00 GMT") true).cacheSaved = true ∧
    (runPipeline noShaOracle noResolveOracle [sampleRec] (some sampleReadme)
      [] [] [] (lit "2025-11-01T00:00:00.000Z")
      (lit "Sat, 01 Nov 2025 00:00:00 GMT") true).backupWritten = false ∧
    (runPipeline noShaOracle noResolveOracle [sampleRec] (some sampleReadme)
      [] [] [] (lit "2025-11-01T00:00:00.000Z")
      (lit "Sat, 01 Nov 2025 00:00:00 GMT") true).docWritten = false ∧
    (runPipeline noShaOracle noResolveOracle [sampleRec] (some sampleReadme)
      [] [] [] (lit "2025-11-01T00:00:00.000Z")
      (lit "Sat, 01 Nov 2025 00:00:00 GMT") true).printedPreview.isSome = true := by
  refine ⟨?_, ?_, ?_, ?_⟩ <;> rfl

def badNode : List (Text × Text) :=
  [(lit "project_name", lit "X"), (lit "sys_created_on", lit "bad")]

def badRec : Rec :=
  { project_name := lit "X", focus_area := lit "—", description := lit "—",
    impact := lit "—", created_dt := some none, created_raw := lit "bad",
    path := lit "update/bad.xml" }

def noDateRec : Rec :=
  { project_name := lit "Y", focus_area := lit "—", description := lit "—",
    impact := lit "—", created_dt := none, created_raw := [],
    path := lit "update/nd.xml" }

/-- C3: the claim says a present-but-invalid `sys_created_on` yields a
record whose timestamp is null, the record is kept, and a null timestamp
sorts last.  The code violates the first part: parsing succeeds but the
timestamp is an *invalid `Date` object* (`some none`), not null, and
rendering such a record throws (`toISOString` raises `RangeError`), so the
whole run aborts fatally instead of keeping the record.  (A genuinely null
timestamp does sort after all dated records, as the last conjunct shows.) -/
theorem c3_invalid_created_on_aborts_run :
    parseXmlRecord (some badNode) (lit "update/bad.xml") = some badRec ∧
    badRec.created_dt = some none ∧
    badRec.created_dt ≠ none ∧
    (runPipeline noShaOracle noResolveOracle [badRec] (some sampleReadme)
      [] [] [] (lit "i") (lit "u") false).fatal = true ∧
    (runPipeline noShaOracle noResolveOracle [badRec] (some sampleReadme)
      [] [] [] (lit "i") (lit "u") false).docWritten = false ∧
    jsSortRecs [noDateRec, sampleRec] = [sampleRec, noDateRec] := by
  refine ⟨?_, ?_, ?_, ?_, ?_, ?_⟩ <;> first | rfl | decide

/-- C9: cache round-trip — `save` followed by `load` reproduces the same
attribution mapping and the same seen set (the `lastRun` metadata is in
fact also reproduced, which the claim permits), and `save` always writes
the current wrapper shape with `attrs` and `meta` keys. -/
theorem c9_cache_roundtrip_and_wrapper_shape (attrs : List (Text × Attr))
    (seen : List Text) (lastRun : Option Text) :
    loadCacheStructured (some (saveCacheJson attrs seen lastRun)) =
      some (attrs, seen, lastRun) ∧
    saveCacheJson attrs seen lastRun =
      Json.obj [(lit "attrs", Json.obj (attrs.map fun p => (p.1, attrToJson p.2))),
                (lit "meta", metaToJson seen lastRun)] :=
  ⟨cache_roundtrip attrs seen lastRun, rfl⟩

/-- C10: when the document contains both sentinel markers but no start
marker is followed later by an end marker, the injector returns the
document unchanged — no region is replaced and no fresh region is
appended. -/
theorem c10_out_of_order_markers_leave_document_unchanged
    (doc block : Text)
    (hs : containsSub doc MARKER_START = true)
    (he : containsSub doc MARKER_END = true)
    (hno : ∀ i < doc.length, MARKER_START.isPrefixOf (doc.drop i) = true →
      ∀ j < doc.length, i + MARKER_START.length ≤ j →
        ¬ MARKER_END.isPrefixOf (doc.drop j) = true) :
    replaceBetweenMarkers doc block = doc := by
  have hs2 := hs
  unfold containsSub at hs2
  cases hfs : findFirstIdx MARKER_START doc with
  | none => rw [hfs] at hs2; cases hs2
  | some i =>
    have hocc := ((findFirstIdx_eq_some _ _ _).1 hfs).1
    have hilen : i < doc.length :=
      occ_lt_length _ _ _ (by decide) hocc
    cases hfe : findFirstIdx MARKER_END (doc.drop (i + MARKER_START.length)) with
    | some j =>
      exfalso
      have hocce := ((findFirstIdx_eq_some _ _ _).1 hfe).1
      rw [List.drop_drop] at hocce
      have hplen : i + MARKER_START.length + j < doc.length :=
        occ_lt_length _ _ _ (by decide) hocce
      exact hno i hilen hocc (i + MARKER_START.length + j) hplen (by omega) hocce
    | none => exact replaceBetweenMarkers_no_match doc block i hfs he hfe

/-- Witness for C10 at a concrete document whose markers are out of order. -/
theorem c10_witness :
    replaceBetweenMarkers (lit "<!-- ideas:end -->mid<!-- ideas:start -->")
      (lit "X") = lit "<!-- ideas:end -->mid<!-- ideas:start -->" :=
  c10_out_of_order_markers_leave_document_unchanged _ _ (by decide) (by decide)
    (by decide)

/-- C7: the injector.  (1) When the start marker first occurs at `i` and
the end marker first occurs `j` characters after it, everything strictly
between the two markers is replaced by the updated-automatically preamble
plus the new block, the markers themselves and every character outside
them being preserved (stated for blocks without `$`, which the
replacement-template expansion would otherwise interpret).  (2) The
concrete scenario from the claim.  (3) When either marker is absent a
freshly delimited region is appended after a blank line. -/
theorem c7_inject_replaces_region_or_appends :
    (∀ (doc block : Text) (i j : Nat),
      findFirstIdx MARKER_START doc = some i →
      findFirstIdx MARKER_END (doc.drop (i + MARKER_START.length)) = some j →
      ('$' : Char) ∉ block →
      replaceBetweenMarkers doc block =
        doc.take i ++ MARKER_START ++ updatedPreamble ++ block ++ MARKER_END ++
          doc.drop (i + MARKER_START.length + j + MARKER_END.length)) ∧
    replaceBetweenMarkers (lit "A\n<!-- ideas:start -->\nold\n<!-- ideas:end -->\nB")
        (lit "new") =
      lit "A\n<!-- ideas:start -->\n\n_Updated automatically on merge to `main`._\nnew<!-- ideas:end -->\nB" ∧
    (∀ (doc block : Text),
      containsSub doc MARKER_START = false ∨ containsSub doc MARKER_END = false →
      replaceBetweenMarkers doc block =
        jsTrimEnd doc ++ lit "\n\n" ++ MARKER_START ++
          lit "\n\n_Updated automatically on merge to `main`._\n\n" ++ block ++
          lit "\n" ++ MARKER_END ++ lit "\n") :=
  ⟨replaceBetweenMarkers_replace, by decide, replaceBetweenMarkers_append_case⟩

/-- Witness for C7: the general replacement equation instantiated at the
claim's concrete scenario, and the append branch at a marker-less
document. -/
theorem c7_witness :
    replaceBetweenMarkers (lit "A\n<!-- ideas:start -->\nold\n<!-- ideas:end -->\nB")
        (lit "new") =
      (lit "A\n<!-- ideas:start -->\nold\n<!-- ideas:end -->\nB").take 2 ++
        MARKER_START ++ updatedPreamble ++ lit "new" ++ MARKER_END ++
        (lit "A\n<!-- ideas:start -->\nold\n<!-- ideas:end -->\nB").drop
          (2 + MARKER_START.length + 5 + MARKER_END.length) ∧
    replaceBetweenMarkers (lit "# Hack4Good\n\n") (lit "X") =
      jsTrimEnd (lit "# Hack4Good\n\n") ++ lit "\n\n" ++ MARKER_START ++
        lit "\n\n_Updated automatically on merge to `main`._\n\n" ++ lit "X" ++
        lit "\n" ++ MARKER_END ++ lit "\n" :=
  ⟨c7_inject_replaces_region_or_appends.1 _ _ 2 5 (by decide) (by decide)
      (by decide),
    c7_inject_replaces_region_or_appends.2.2 _ _ (Or.inl (by decide))⟩

def allSeenAttrs : List (Text × Attr) :=
  [(lit "update/x1.xml",
    { login := some (lit "Unknown"), avatar_url := [], html_url := [],
      resolvedFrom := some none, seenFlag := true })]

def allSeenSeen : List Text := [lit "update/x1.xml"]

/-- A document over which the pipeline run with `sampleRec` and the
all-seen cache recomputes exactly the same document (the output of an
earlier such run). -/
def stableDoc : Text :=
  lit "A\n<!-- ideas:start -->\n\n_Updated automatically on merge to `main`._\n## A Special Partnership: Hack4Good\n\nWe are thrilled to announce that we are partnering with our friends at Hack4Good!\n\n> This repository stores idea submissions for Hack4Good initiatives. You can import this application into a ServiceNow instance and submit ideas. Follow the CONTRIBUTING.md for guidelines.\n\n\n\n### 📊 Ideas Summary\n\n**Total Ideas:** 1  \n**Top Focus Area:** 🌱 Sustainability and Decarbonization  \n**Date Range:** 2025-10-31 → 2025-10-31  \n**New submissions this run:** 0\n\n| Project | Focus area | Description | Impact | Submitted by | Created (UTC) |\n|---|---|---|---|---|---|\n| [EcoTrack](update/x1.xml) | 🌱 Sustainability and Decarbonization | track waste | less waste | @Unknown | 2025-10-31 |\n\n<!-- ideas:end -->\nB\n\n\n_Last updated: utc0_\n"

/-- Counterexample to C5: a run whose computed document is byte-identical
to the document on disk skips the write — but the backup of `README.md`
to `README_backup.md` is still made, because the copy happens before the
comparison.  The claim "neither README.md nor the backup copy is written"
is false on the code. -/
theorem c5_counterexample_backup_despite_no_change :
    (runPipeline noShaOracle noResolveOracle [sampleRec] (some stableDoc)
      allSeenAttrs allSeenSeen [] (lit "iso1") (lit "utc1") false).updatedDoc =
      stableDoc ∧
    (runPipeline noShaOracle noResolveOracle [sampleRec] (some stableDoc)
      allSeenAttrs allSeenSeen [] (lit "iso1") (lit "utc1") false).docWritten =
      false ∧
    (runPipeline noShaOracle noResolveOracle [sampleRec] (some stableDoc)
      allSeenAttrs allSeenSeen [] (lit "iso1") (lit "utc1") false).backupWritten =
      true := by
  refine ⟨eq_of_beq (by decide), by decide, by decide⟩

/-- C5 (amended): when the computed document is byte-identical to the
on-disk document, the run does skip the document write and leaves the file
unchanged — but the backup copy is still made (the backup precedes the
comparison and runs whenever the README exists and dry-run is off). -/
theorem c5_amended_skip_write_but_backup (shaOf : Text → Option Text)
    (resolveO : Text → Option Attr) (parsed : List Rec) (doc0 : Text)
    (attrs0 : List (Text × Attr)) (seen0 : List Text)
    (contrib nowIso nowUTC : Text)
    (hnf : (runPipeline shaOf resolveO parsed (some doc0) attrs0 seen0 contrib
      nowIso nowUTC false).fatal = false)
    (heq : (runPipeline shaOf resolveO parsed (some doc0) attrs0 seen0 contrib
      nowIso nowUTC false).updatedDoc = doc0) :
    (runPipeline shaOf resolveO parsed (some doc0) attrs0 seen0 contrib
      nowIso nowUTC false).docWritten = false ∧
    (runPipeline shaOf resolveO parsed (some doc0) attrs0 seen0 contrib
      nowIso nowUTC false).finalDisk = some doc0 ∧
    (runPipeline shaOf resolveO parsed (some doc0) attrs0 seen0 contrib
      nowIso nowUTC false).backupWritten = true := by
  simp only [runPipeline] at hnf heq ⊢
  cases hbt : buildTable shaOf resolveO (jsSortRecs parsed) attrs0 seen0 nowIso with
  | error e =>
    rw [hbt] at hnf
    simp at hnf
  | ok bt =>
    rw [hbt] at heq
    simp only [Bool.false_eq_true, if_false] at heq ⊢
    have hrd : readReadme (some doc0) = doc0 := rfl
    cases hif : replaceBetweenMarkers (readReadme (some doc0))
        (headerBlock contrib bt.table) == readReadme (some doc0) with
    | true =>
      simp only [eq_self_iff_true, if_true]
      refine ⟨?_, ?_, ?_⟩ <;> first | trivial | rfl
    | false =>
      exfalso
      rw [hif] at heq
      simp only [Bool.false_eq_true, if_false] at heq
      have hbeq : (replaceBetweenMarkers (readReadme (some doc0))
          (headerBlock contrib bt.table) == readReadme (some doc0)) = true := by
        rw [heq]
        exact beq_self_eq_true doc0
      rw [hbeq] at hif
      cases hif

/-- Witness for C5 (amended) at the concrete stable state. -/
theorem c5_amended_witness :
    (runPipeline noShaOracle noResolveOracle [sampleRec] (some stableDoc)
      allSeenAttrs allSeenSeen [] (lit "iso2") (lit "utc2") false).docWritten =
      false ∧
    (runPipeline noShaOracle noResolveOracle [sampleRec] (some stableDoc)
      allSeenAttrs allSeenSeen [] (lit "iso2") (lit "utc2") false).finalDisk =
      some stableDoc ∧
    (runPipeline noShaOracle noResolveOracle [sampleRec] (some stableDoc)
      allSeenAttrs allSeenSeen [] (lit "iso2") (lit "utc2") false).backupWritten =
      true :=
  c5_amended_skip_write_but_backup noShaOracle noResolveOracle [sampleRec]
    stableDoc allSeenAttrs allSeenSeen [] (lit "iso2") (lit "utc2") (by decide)
    (eq_of_beq (by decide))

theorem jsSortRecs_length (l : List Rec) :
    (jsSortRecs l).length = l.length :=
  (jsSortRecs_perm l).length_eq

def datedEarlyRec : Rec :=
  { sampleRec with
    created_dt := some (jsDateParse (lit "2025-01-01T00:00:00Z")),
    created_raw := lit "2025-01-01 00:00:00", path := lit "update/d.xml" }

/-- Modelled from the spec's words for claim C6, for comparison with the
code: the minimum and maximum creation dates computed only over the
records with a known (valid, non-null) timestamp. -/
def specDateRangeKnown (items : List Rec) : Option (Text × Text) :=
  let dated := items.filterMap fun r =>
    match r.created_dt with
    | some (some d) => some d
    | _ => none
  match dated with
  | [] => none
  | d :: t =>
    some ((t.foldl (fun a b => if b.getTimeMs < a.getTimeMs then b else a) d).isoDate10,
          (t.foldl (fun a b => if a.getTimeMs < b.getTimeMs then b else a) d).isoDate10)

/-- Counterexample to C6: with one dated and one undated record, the
spec's min-over-known-timestamps is `2025-01-01`, but the code renders the
left endpoint of the date range from the *last element of the sorted
array*, which is the undated record, producing the placeholder instead. -/
theorem c6_counterexample_undated_pollutes_range :
    specDateRangeKnown [datedEarlyRec, noDateRec] =
      some (lit "2025-01-01", lit "2025-01-01") ∧
    summaryDates (jsSortRecs [datedEarlyRec, noDateRec]) =
      Except.ok (lit "—", lit "2025-01-01") ∧
    lit "—" ≠ lit "2025-01-01" := by
  refine ⟨by decide, by rfl, by decide⟩

/-- The value of one summary date cell (`toISOString().slice(0, 10)` or
the placeholder), as read off an optional record. -/
def summaryCellOf (r? : Option Rec) : Text :=
  match r? with
  | some r => createdCellTotal r.created_dt
  | none => lit "—"

theorem renderCreatedCell_ok (cd : Option (Option DateV)) (h : cd ≠ some none) :
    renderCreatedCell cd = .ok (createdCellTotal cd) := by
  rcases cd with _ | cd
  · rfl
  · rcases cd with _ | d
    · exact absurd rfl h
    · rfl

theorem processItems_ok_all (shaOf : Text → Option Text)
    (resolveO : Text → Option Attr) :
    ∀ (items : List Rec) (st : BTState),
      (∀ r ∈ items, r.created_dt ≠ some none) →
      ∃ stf, processItems shaOf resolveO items st = .ok stf := by
  intro items
  induction items with
  | nil => exact fun st _ => ⟨st, rfl⟩
  | cons head rest ih =>
    intro st hv
    obtain ⟨st1, h1⟩ := processItem_ok_of_valid shaOf resolveO st head
      (hv head (List.mem_cons_self head rest))
    obtain ⟨stf, h2⟩ := ih st1 fun r hm => hv r (List.mem_cons_of_mem head hm)
    exact ⟨stf, by simp only [processItems, h1, h2]⟩

/-- C6 (amended): the rendered date range is taken from the first and last
elements of the *sorted record array*, not from the dated records only:
the newest endpoint is the first element's date cell and the oldest
endpoint the last element's.  Since undated records sort last, the
endpoints agree with the max/min over dated records exactly when every
record is dated; as soon as one record is undated the oldest endpoint
renders the placeholder.  Undated records still count in the summary's
total, which is the length of the whole list. -/
theorem c6_amended_date_range_from_sorted_endpoints (items : List Rec)
    (hvalid : ∀ r ∈ items, r.created_dt ≠ some none) :
    summaryDates (jsSortRecs items) =
      .ok (summaryCellOf (jsSortRecs items).getLast?,
           summaryCellOf (jsSortRecs items).head?) ∧
    ((∃ r ∈ items, r.created_dt = none) →
      summaryCellOf (jsSortRecs items).getLast? = lit "—") ∧
    (items ≠ [] → (∀ r ∈ items, r.created_dt ≠ none) →
      ∃ rmax ∈ items, ∃ rmin ∈ items,
        summaryCellOf (jsSortRecs items).head? = createdCellTotal rmax.created_dt ∧
        summaryCellOf (jsSortRecs items).getLast? = createdCellTotal rmin.created_dt ∧
        ∀ r ∈ items, okKey r ≤ okKey rmax ∧ okKey rmin ≤ okKey r) ∧
    (∀ (shaOf : Text → Option Text) (resolveO : Text → Option Attr)
        (attrs0 : List (Text × Attr)) (seen0 : List Text) (nowIso : Text),
      items ≠ [] →
      ∃ bt topFocus dateRange rowsMd,
        buildTable shaOf resolveO (jsSortRecs items) attrs0 seen0 nowIso = .ok bt ∧
        bt.table =
          lit "\n" ++ lit "### 📊 Ideas Summary\n\n" ++
          (lit "**Total Ideas:** " ++ natToText items.length) ++ lit "  \n" ++
          (lit "**Top Focus Area:** " ++ topFocus) ++ lit "  \n" ++
          (lit "**Date Range:** " ++ dateRange) ++ lit "  \n" ++
          (lit "**New submissions this run:** " ++
            natToText bt.newlySeen.length) ++ lit "\n\n" ++
          lit "| Project | Focus area | Description | Impact | Submitted by | Created (UTC) |\n|---|---|---|---|---|---|\n" ++
          rowsMd ++ lit "\n") := by
  have hvs : ∀ r ∈ jsSortRecs items, r.created_dt ≠ some none :=
    fun r hr => hvalid r ((mem_jsSortRecs items r).1 hr)
  have hp := jsSortRecs_pairwise items hvalid
  have parta : summaryDates (jsSortRecs items) =
      .ok (summaryCellOf (jsSortRecs items).getLast?,
           summaryCellOf (jsSortRecs items).head?) := by
    rcases hs : jsSortRecs items with _ | ⟨h, t⟩
    · rfl
    · have hhv : h.created_dt ≠ some none := by
        refine hvs h ?_
        rw [hs]
        exact List.mem_cons_self h t
      obtain ⟨z, hz⟩ : ∃ z, (h :: t).getLast? = some z :=
        ⟨(h :: t).getLast (by simp), List.getLast?_eq_getLast _ (by simp)⟩
      have hzmem : z ∈ h :: t := by
        obtain ⟨hne2, hzl⟩ := List.mem_getLast?_eq_getLast hz
        rw [hzl]
        exact List.getLast_mem hne2
      have hzv : z.created_dt ≠ some none := by
        refine hvs z ?_
        rw [hs]
        exact hzmem
      simp only [summaryDates, List.head?_cons, hz,
        renderCreatedCell_ok _ hhv, renderCreatedCell_ok _ hzv, summaryCellOf]
  have partb : (∃ r ∈ items, r.created_dt = none) →
      summaryCellOf (jsSortRecs items).getLast? = lit "—" := by
    rintro ⟨u, hu, hun⟩
    have hus : u ∈ jsSortRecs items := (mem_jsSortRecs items u).2 hu
    rcases hs : jsSortRecs items with _ | ⟨h, t⟩
    · rw [hs] at hus
      cases hus
    · rw [hs] at hus hp
      obtain ⟨z, hz⟩ : ∃ z, (h :: t).getLast? = some z :=
        ⟨(h :: t).getLast (by simp), List.getLast?_eq_getLast _ (by simp)⟩
      have hzmem : z ∈ h :: t := by
        obtain ⟨hne2, hzl⟩ := List.mem_getLast?_eq_getLast hz
        rw [hzl]
        exact List.getLast_mem hne2
      rw [hz]
      have hub : okKey u = ⊥ := by simp [okKey, hun]
      rcases pairwise_getLast_min (h :: t) z hz hp u hus with heq | hle
      · rw [← heq]
        simp [summaryCellOf, createdCellTotal, hun]
      · have hzb : okKey z = ⊥ := le_bot_iff.1 (hub ▸ hle)
        have hzv : z.created_dt ≠ some none := by
          refine hvs z ?_
          rw [hs]
          exact hzmem
        rcases hzc : z.created_dt with _ | zc
        · simp [summaryCellOf, createdCellTotal, hzc]
        · rcases zc with _ | d
          · exact absurd hzc hzv
          · exfalso
            rw [okKey] at hzb
            rw [hzc] at hzb
            simp at hzb
  have partc : items ≠ [] → (∀ r ∈ items, r.created_dt ≠ none) →
      ∃ rmax ∈ items, ∃ rmin ∈ items,
        summaryCellOf (jsSortRecs items).head? = createdCellTotal rmax.created_dt ∧
        summaryCellOf (jsSortRecs items).getLast? = createdCellTotal rmin.created_dt ∧
        ∀ r ∈ items, okKey r ≤ okKey rmax ∧ okKey rmin ≤ okKey r := by
    intro hne _
    rcases hs : jsSortRecs items with _ | ⟨h, t⟩
    · exfalso
      have hlen := jsSortRecs_length items
      rw [hs] at hlen
      exact hne (List.length_eq_zero.1 hlen.symm)
    · rw [hs] at hp
      obtain ⟨z, hz⟩ : ∃ z, (h :: t).getLast? = some z :=
        ⟨(h :: t).getLast (by simp), List.getLast?_eq_getLast _ (by simp)⟩
      have hzmem : z ∈ h :: t := by
        obtain ⟨hne2, hzl⟩ := List.mem_getLast?_eq_getLast hz
        rw [hzl]
        exact List.getLast_mem hne2
      have hhm : h ∈ items := by
        refine (mem_jsSortRecs items h).1 ?_
        rw [hs]
        exact List.mem_cons_self h t
      have hzm : z ∈ items := by
        refine (mem_jsSortRecs items z).1 ?_
        rw [hs]
        exact hzmem
      refine ⟨h, hhm, z, hzm, rfl, by rw [hz]; rfl, ?_⟩
      intro r hr
      have hrs : r ∈ h :: t := by
        rw [← hs]
        exact (mem_jsSortRecs items r).2 hr
      constructor
      · rcases List.mem_cons.1 hrs with hr2 | hr2
        · rw [hr2]
        · exact (List.pairwise_cons.1 hp).1 r hr2
      · rcases pairwise_getLast_min (h :: t) z hz hp r hrs with heq | hle
        · rw [heq]
        · exact hle
  refine ⟨parta, partb, partc, ?_⟩
  intro shaOf resolveO attrs0 seen0 nowIso hne
  have hsne : ¬ (jsSortRecs items = []) := by
    intro hc
    have hlen := jsSortRecs_length items
    rw [hc] at hlen
    exact hne (List.length_eq_zero.1 hlen.symm)
  obtain ⟨stf, hrun⟩ :=
    processItems_ok_all shaOf resolveO (jsSortRecs items) _ hvs
  unfold buildTable
  rw [if_neg hsne, hrun, parta]
  refine ⟨_,
    (match (sortCountsDesc stf.catCount).head? with
      | some p => p.1
      | none => lit "N/A"),
    summaryCellOf (jsSortRecs items).getLast? ++
      (lit " → " ++ summaryCellOf (jsSortRecs items).head?),
    joinSep (lit "\n") stf.rows, rfl, ?_⟩
  simp only [joinSep, jsSortRecs_length]
  simp [List.append_assoc]

/-! ## Locality of marker occurrences, and canonical-document stability -/

theorem isPrefixOf_iff_take (pat u : Text) :
    pat.isPrefixOf u = true ↔ u.take pat.length = pat := by
  rw [List.isPrefixOf_iff_prefix]
  constructor
  · intro h
    exact (List.prefix_iff_eq_take.1 h).symm
  · intro h
    exact List.prefix_iff_eq_take.2 h.symm

/-- An occurrence test whose window lies inside `A` does not depend on
what follows `A`. -/
theorem isPrefixOf_drop_append_eq (pat A X Y : Text) (n : Nat)
    (h : n + pat.length ≤ A.length) :
    pat.isPrefixOf ((A ++ X).drop n) = pat.isPrefixOf ((A ++ Y).drop n) := by
  have key : ∀ (Z : Text), ((A ++ Z).drop n).take pat.length =
      (A.drop n).take pat.length := by
    intro Z
    rw [List.drop_append_of_le_length (by omega), List.take_append_of_le_length]
    have : (A.drop n).length = A.length - n := List.length_drop n A
    omega
  cases hx : pat.isPrefixOf ((A ++ X).drop n) with
  | true =>
    have := (isPrefixOf_iff_take _ _).1 hx
    rw [key X] at this
    exact ((isPrefixOf_iff_take _ _).2 (by rw [key Y]; exact this)).symm
  | false =>
    cases hy : pat.isPrefixOf ((A ++ Y).drop n) with
    | false => rfl
    | true =>
      have := (isPrefixOf_iff_take _ _).1 hy
      rw [key Y] at this
      rw [(isPrefixOf_iff_take _ _).2 (by rw [key X]; exact this)] at hx
      cases hx

/-- If the first occurrence of `pat` in `p ++ pat` is the final one, then
in `p ++ pat ++ r` the first occurrence is still at `p.length`, for any
`r`. -/
theorem findFirstIdx_extend (pat p r : Text)
    (h : findFirstIdx pat (p ++ pat) = some p.length) :
    findFirstIdx pat (p ++ pat ++ r) = some p.length := by
  have hmin := ((findFirstIdx_eq_some _ _ _).1 h).2
  rw [findFirstIdx_eq_some]
  constructor
  · rw [List.append_assoc, List.drop_left]
    exact (isPrefixOf_iff_take _ _).2 (List.take_left' rfl)
  · intro n hn
    have hloc := isPrefixOf_drop_append_eq pat (p ++ pat) r [] n (by
      rw [List.length_append]
      omega)
    rw [hloc]
    rw [List.append_nil]
    exact hmin n hn

/-- On a canonical document — the region between the markers is exactly
what this injection writes — the injector is the identity. -/
theorem replaceBetweenMarkers_canonical (p q block : Text)
    (hS : findFirstIdx MARKER_START (p ++ MARKER_START) = some p.length)
    (hE : findFirstIdx MARKER_END
      (updatedPreamble ++ block ++ MARKER_END) =
      some (updatedPreamble ++ block).length)
    (hd : ('$' : Char) ∉ block) :
    replaceBetweenMarkers
        (p ++ MARKER_START ++ updatedPreamble ++ block ++ MARKER_END ++ q)
        block =
      p ++ MARKER_START ++ updatedPreamble ++ block ++ MARKER_END ++ q := by
  have h1 : findFirstIdx MARKER_START
      (p ++ MARKER_START ++ updatedPreamble ++ block ++ MARKER_END ++ q) =
      some p.length := by
    have := findFirstIdx_extend MARKER_START p
      (updatedPreamble ++ block ++ MARKER_END ++ q) hS
    simpa [List.append_assoc] using this
  have hdrop : (p ++ MARKER_START ++ updatedPreamble ++ block ++ MARKER_END ++
      q).drop (p.length + MARKER_START.length) =
      updatedPreamble ++ block ++ MARKER_END ++ q := by
    have : p.length + MARKER_START.length = (p ++ MARKER_START).length := by
      rw [List.length_append]
    rw [this]
    have hre : p ++ MARKER_START ++ updatedPreamble ++ block ++ MARKER_END ++ q =
        (p ++ MARKER_START) ++ (updatedPreamble ++ block ++ MARKER_END ++ q) := by
      simp [List.append_assoc]
    rw [hre, List.drop_left]
  have h2 : findFirstIdx MARKER_END
      ((p ++ MARKER_START ++ updatedPreamble ++ block ++ MARKER_END ++ q).drop
        (p.length + MARKER_START.length)) =
      some (updatedPreamble ++ block).length := by
    rw [hdrop]
    have := findFirstIdx_extend MARKER_END (updatedPreamble ++ block) q (by
      simpa [List.append_assoc] using hE)
    simpa [List.append_assoc] using this
  rw [replaceBetweenMarkers_replace _ _ _ _ h1 h2 hd]
  have htake : (p ++ MARKER_START ++ updatedPreamble ++ block ++ MARKER_END ++
      q).take p.length = p := by
    have hre : p ++ MARKER_START ++ updatedPreamble ++ block ++ MARKER_END ++ q =
        p ++ (MARKER_START ++ (updatedPreamble ++ (block ++ (MARKER_END ++ q)))) := by
      simp [List.append_assoc]
    rw [hre, List.take_left]
  have hdrop2 : (p ++ MARKER_START ++ updatedPreamble ++ block ++ MARKER_END ++
      q).drop (p.length + MARKER_START.length + (updatedPreamble ++ block).length +
        MARKER_END.length) = q := by
    have hlen : p.length + MARKER_START.length + (updatedPreamble ++ block).length +
        MARKER_END.length =
        (p ++ MARKER_START ++ updatedPreamble ++ block ++ MARKER_END).length := by
      simp [List.length_append]
      omega
    rw [hlen]
    have hre : p ++ MARKER_START ++ updatedPreamble ++ block ++ MARKER_END ++ q =
        (p ++ MARKER_START ++ updatedPreamble ++ block ++ MARKER_END) ++ q := rfl
    rw [hre, List.drop_left]
  rw [htake, hdrop2]

theorem c6_amended_witness :
    (∀ r ∈ [sampleRec, noDateRec], r.created_dt ≠ some none) ∧
    summaryDates (jsSortRecs [sampleRec, noDateRec]) =
      .ok (summaryCellOf (jsSortRecs [sampleRec, noDateRec]).getLast?,
           summaryCellOf (jsSortRecs [sampleRec, noDateRec]).head?) ∧
    summaryCellOf (jsSortRecs [sampleRec, noDateRec]).getLast? = lit "—" :=
  ⟨by decide,
   (c6_amended_date_range_from_sorted_endpoints [sampleRec, noDateRec]
      (by decide)).1,
   (c6_amended_date_range_from_sorted_endpoints [sampleRec, noDateRec]
      (by decide)).2.1 ⟨noDateRec, by decide, rfl⟩⟩

/-! ## Two consecutive runs from a fresh cache (claim C2) -/

/-- First run: fresh (empty) attribution cache and seen set, README with the
marker pair on disk, one record, live mode. -/
def c2run1 : RunOut :=
  runPipeline noShaOracle noResolveOracle [sampleRec] (some sampleReadme)
    [] [] [] (lit "2025-11-01T00:00:00.000Z") (lit "2025-11-01 00:00 UTC") false

/-- Second run over the same single input file, starting from the document
and cache the first run left behind. -/
def c2run2 : RunOut :=
  runPipeline noShaOracle noResolveOracle [sampleRec] c2run1.finalDisk
    c2run1.attrsSaved c2run1.seenSaved []
    (lit "2025-11-02T00:00:00.000Z") (lit "2025-11-02 00:00 UTC") false

/-- Claim C2 (counterexample): with no new input files between the runs, the
second run is NOT a no-op. The first run renders the record as a new
submission (sparkle marker, new-count 1); the second run, reading the saved
seen set, renders it without the marker and with new-count 0, so the
document it computes differs from the one on disk and it rewrites the
README (moving the last-updated line and changing the counts): the claim's
byte-identical/no-op property fails on this input. -/
theorem c2_counterexample_second_run_rewrites :
    c2run1.docWritten = true ∧
    c2run2.docWritten = true ∧
    c2run2.updatedDoc ≠ c2run1.finalDisk.getD [] ∧
    c2run2.finalDisk ≠ c2run1.finalDisk := by
  refine ⟨by decide, by decide, ?_, ?_⟩
  · exact ne_of_beq_false (by decide)
  · exact ne_of_beq_false (by decide)

/-- On a document of the shape `p ++ START ++ mid ++ END ++ q` where the
shown occurrences are the first ones, the injector replaces exactly `mid`. -/
theorem replaceBetweenMarkers_general (p mid q block : Text)
    (hS : findFirstIdx MARKER_START (p ++ MARKER_START) = some p.length)
    (hEmid : findFirstIdx MARKER_END (mid ++ MARKER_END) = some mid.length)
    (hd : ('$' : Char) ∉ block) :
    replaceBetweenMarkers (p ++ MARKER_START ++ mid ++ MARKER_END ++ q) block =
      p ++ MARKER_START ++ updatedPreamble ++ block ++ MARKER_END ++ q := by
  have h1 : findFirstIdx MARKER_START
      (p ++ MARKER_START ++ mid ++ MARKER_END ++ q) = some p.length := by
    have := findFirstIdx_extend MARKER_START p (mid ++ MARKER_END ++ q) hS
    simpa [List.append_assoc] using this
  have hdrop : (p ++ MARKER_START ++ mid ++ MARKER_END ++
      q).drop (p.length + MARKER_START.length) = mid ++ MARKER_END ++ q := by
    have hl : p.length + MARKER_START.length = (p ++ MARKER_START).length := by
      rw [List.length_append]
    rw [hl]
    have hre : p ++ MARKER_START ++ mid ++ MARKER_END ++ q =
        (p ++ MARKER_START) ++ (mid ++ MARKER_END ++ q) := by
      simp [List.append_assoc]
    rw [hre, List.drop_left]
  have h2 : findFirstIdx MARKER_END
      ((p ++ MARKER_START ++ mid ++ MARKER_END ++ q).drop
        (p.length + MARKER_START.length)) = some mid.length := by
    rw [hdrop]
    have := findFirstIdx_extend MARKER_END mid q hEmid
    simpa [List.append_assoc] using this
  rw [replaceBetweenMarkers_replace _ _ _ _ h1 h2 hd]
  have htake : (p ++ MARKER_START ++ mid ++ MARKER_END ++
      q).take p.length = p := by
    have hre : p ++ MARKER_START ++ mid ++ MARKER_END ++ q =
        p ++ (MARKER_START ++ (mid ++ (MARKER_END ++ q))) := by
      simp [List.append_assoc]
    rw [hre, List.take_left]
  have hdrop2 : (p ++ MARKER_START ++ mid ++ MARKER_END ++
      q).drop (p.length + MARKER_START.length + mid.length +
        MARKER_END.length) = q := by
    have hlen : p.length + MARKER_START.length + mid.length +
        MARKER_END.length =
        (p ++ MARKER_START ++ mid ++ MARKER_END).length := by
      simp [List.length_append]
      omega
    rw [hlen]
    have hre : p ++ MARKER_START ++ mid ++ MARKER_END ++ q =
        (p ++ MARKER_START ++ mid ++ MARKER_END) ++ q := rfl
    rw [hre, List.drop_left]
  rw [htake, hdrop2]

/-! ## Stability of the rendered table on a second run over the same inputs -/

theorem summaryDates_ok_of_valid (items : List Rec)
    (hv : ∀ r ∈ items, r.created_dt ≠ some none) :
    summaryDates items =
      .ok (summaryCellOf items.getLast?, summaryCellOf items.head?) := by
  rcases items with _ | ⟨h, t⟩
  · rfl
  · have hhv : h.created_dt ≠ some none := hv h (List.mem_cons_self h t)
    obtain ⟨z, hz⟩ : ∃ z, (h :: t).getLast? = some z :=
      ⟨(h :: t).getLast (by simp), List.getLast?_eq_getLast _ (by simp)⟩
    have hzmem : z ∈ h :: t := by
      obtain ⟨hne2, hzl⟩ := List.mem_getLast?_eq_getLast hz
      rw [hzl]
      exact List.getLast_mem hne2
    have hzv : z.created_dt ≠ some none := hv z hzmem
    simp only [summaryDates, List.head?_cons, hz,
      renderCreatedCell_ok _ hhv, renderCreatedCell_ok _ hzv, summaryCellOf]

theorem stepAttrFull_false (shaOf : Text → Option Text)
    (resolveO : Text → Option Attr) (k : Text) (a0 : Option Attr) :
    stepAttrFull shaOf resolveO k a0 false = stepAttrOf shaOf resolveO k a0 := by
  simp [stepAttrFull]

/-- A row rendered from a cache that already holds the step result of a
previous run (with the record already seen both times) is unchanged. -/
theorem rowOfInit_stable (shaOf : Text → Option Text)
    (resolveO : Text → Option Attr) (attrs0 A : List (Text × Attr))
    (seen0 : List Text) (it : Rec)
    (hs : seenHas seen0 it.path = true)
    (hA : alistLookup A it.path =
      some (stepAttrFull shaOf resolveO it.path
        (alistLookup attrs0 it.path) false)) :
    rowOfInit shaOf resolveO A seen0 it = rowOfInit shaOf resolveO attrs0 seen0 it := by
  have hesA : effSeen A seen0 it.path = true := by simp [effSeen, hs]
  have hes0 : effSeen attrs0 seen0 it.path = true := by simp [effSeen, hs]
  simp only [rowOfInit, hesA, hes0, hA, Bool.not_true, Bool.false_eq_true,
    if_false, stepAttrFull_false, stepAttrOf_idem]

/-- The table assembled by `buildTable`'s success branch, as a function of
the loop results. -/
def assembleTable (items : List Rec) (rows : List Text)
    (catCount : List (Text × Nat)) (newlyLen : Nat) : Text :=
  lit "\n" ++ (lit "### 📊 Ideas Summary\n\n" ++
    joinSep (lit "  \n")
      [lit "**Total Ideas:** " ++ natToText items.length,
       lit "**Top Focus Area:** " ++
         (match (sortCountsDesc catCount).head? with
          | some pr => pr.1
          | none => lit "N/A"),
       lit "**Date Range:** " ++ summaryCellOf items.getLast? ++ lit " → " ++
         summaryCellOf items.head?,
       lit "**New submissions this run:** " ++ natToText newlyLen] ++
    lit "\n\n") ++
    lit "| Project | Focus area | Description | Impact | Submitted by | Created (UTC) |\n|---|---|---|---|---|---|\n" ++
    joinSep (lit "\n") rows ++ lit "\n"

theorem buildTable_eq_ok (shaOf : Text → Option Text)
    (resolveO : Text → Option Attr) (items : List Rec)
    (attrs0 : List (Text × Attr)) (seen0 : List Text) (iso : Text)
    (stf : BTState) (hni : ¬items = [])
    (hok : processItems shaOf resolveO items
      ⟨attrs0, seen0, [], [], [], []⟩ = .ok stf)
    (hvalid : ∀ r ∈ items, r.created_dt ≠ some none) :
    buildTable shaOf resolveO items attrs0 seen0 iso =
      .ok { table := assembleTable items stf.rows stf.catCount stf.newlySeen.length,
            attrsOut := stf.attrs, seenOut := stf.seen, lastRunOut := some iso,
            cacheSaved := true, newlySeen := stf.newlySeen,
            resolvedKeys := stf.resolvedKeys } := by
  simp only [buildTable, if_neg hni, hok, summaryDates_ok_of_valid items hvalid,
    assembleTable]

/-- When every item is already in the loaded seen set, two successive
`buildTable` runs (the second starting from the first's saved cache)
succeed, mark nothing as new, leave the seen set unchanged, and render
identical tables. -/
theorem buildTable_all_seen_stable (shaOf : Text → Option Text)
    (resolveO : Text → Option Attr) (items : List Rec)
    (attrs0 : List (Text × Attr)) (seen0 : List Text) (iso1 iso2 : Text)
    (hvalid : ∀ r ∈ items, r.created_dt ≠ some none)
    (hnd : (items.map Rec.path).Nodup)
    (hseen : ∀ r ∈ items, seenHas seen0 r.path = true) :
    ∃ bt1 bt2,
      buildTable shaOf resolveO items attrs0 seen0 iso1 = .ok bt1 ∧
      buildTable shaOf resolveO items bt1.attrsOut bt1.seenOut iso2 = .ok bt2 ∧
      bt2.table = bt1.table ∧ bt1.seenOut = seen0 ∧ bt2.seenOut = seen0 ∧
      bt1.newlySeen = [] ∧ bt2.newlySeen = [] := by
  by_cases hni : items = []
  · subst hni
    exact ⟨_, _, rfl, rfl, rfl, rfl, rfl, rfl, rfl⟩
  · have hfilter : ∀ (A : List (Text × Attr)),
        (items.filter fun it =>
          itemIsNew ⟨A, seen0, [], [], [], []⟩ it) = [] := by
      intro A
      rw [List.filter_eq_nil_iff]
      intro it hit
      simp [itemIsNew, effSeen, hseen it hit]
    obtain ⟨stf1, hok1, hseen1, hnew1, hres1, hrows1, hcat1, hattr1, hattr1o⟩ :=
      processItems_facts shaOf resolveO items
        ⟨attrs0, seen0, [], [], [], []⟩ hvalid hnd
    rw [hfilter attrs0] at hseen1 hnew1
    simp only [List.map_nil, List.append_nil,
      List.nil_append] at hseen1 hnew1 hrows1
    obtain ⟨stf2, hok2, hseen2, hnew2, hres2, hrows2, hcat2, hattr2, hattr2o⟩ :=
      processItems_facts shaOf resolveO items
        ⟨stf1.attrs, seen0, [], [], [], []⟩ hvalid hnd
    rw [hfilter stf1.attrs] at hseen2 hnew2
    simp only [List.map_nil, List.append_nil,
      List.nil_append] at hseen2 hnew2 hrows2
    have hroweq : items.map (rowOfInit shaOf resolveO stf1.attrs seen0) =
        items.map (rowOfInit shaOf resolveO attrs0 seen0) := by
      refine List.map_congr_left ?_
      intro it hit
      have hkey := hattr1 it hit
      have hnotnew : itemIsNew ⟨attrs0, seen0, [], [], [], []⟩ it = false := by
        simp [itemIsNew, effSeen, hseen it hit]
      rw [hnotnew] at hkey
      exact rowOfInit_stable shaOf resolveO attrs0 stf1.attrs seen0 it
        (hseen it hit) hkey
    have hbt1 := buildTable_eq_ok shaOf resolveO items attrs0 seen0 iso1
      stf1 hni hok1 hvalid
    refine ⟨_,
      { table := assembleTable items stf2.rows stf2.catCount
                   stf2.newlySeen.length,
        attrsOut := stf2.attrs, seenOut := stf2.seen,
        lastRunOut := some iso2, cacheSaved := true,
        newlySeen := stf2.newlySeen, resolvedKeys := stf2.resolvedKeys },
      hbt1, ?_, ?_, hseen1, hseen2, hnew1, hnew2⟩
    · show buildTable shaOf resolveO items stf1.attrs stf1.seen iso2 = _
      rw [hseen1]
      exact buildTable_eq_ok shaOf resolveO items stf1.attrs seen0 iso2
        stf2 hni hok2 hvalid
    · show assembleTable items stf2.rows stf2.catCount stf2.newlySeen.length =
        assembleTable items stf1.rows stf1.catCount stf1.newlySeen.length
      rw [hrows1, hrows2, hroweq, hcat1, hcat2, hnew1, hnew2]

/-! ## Postprocessing (`trimEnd`, trailing last-updated line) over a fixed
prefix -/

theorem jsTrimEnd_append (A x : Text) (c : Char)
    (hA : A.getLast? = some c) (hc : isJsWhitespace c = false) :
    jsTrimEnd (A ++ x) = A ++ jsTrimEnd x := by
  unfold jsTrimEnd
  rw [List.reverse_append, List.dropWhile_append]
  by_cases he : (x.reverse.dropWhile isJsWhitespace).isEmpty
  · rw [if_pos he]
    have hxe : x.reverse.dropWhile isJsWhitespace = [] :=
      List.isEmpty_iff.1 he
    have hh : A.reverse.head? = some c := by
      rw [List.head?_reverse]
      exact hA
    obtain ⟨tl, htl⟩ : ∃ tl, A.reverse = c :: tl := by
      cases hrev : A.reverse with
      | nil => rw [hrev] at hh; cases hh
      | cons d tl =>
        rw [hrev] at hh
        injection hh with hh
        exact ⟨tl, by rw [hh]⟩
    rw [htl, List.dropWhile_cons]
    simp [hxe, hc, ← htl]
  · rw [if_neg he]
    rw [List.reverse_append]
    simp

/-- When the first occurrence of the last-updated sentinel (if any) lies at
or after the end of `A`, stripping the trailing last-updated line from
`A ++ q` keeps `A` as a prefix intact. -/
theorem removeTrailingLastUpdated_append_ge (A q : Text)
    (hsent : ∀ n, findFirstIdx lastUpdatedSentinel (A ++ q) = some n →
      A.length ≤ n) :
    ∃ q1, removeTrailingLastUpdated (A ++ q) = A ++ q1 := by
  cases hf : findFirstIdx lastUpdatedSentinel (A ++ q) with
  | none =>
    refine ⟨q, ?_⟩
    unfold removeTrailingLastUpdated
    rw [hf]
  | some i =>
    have hge := hsent i hf
    have htake : (A ++ q).take i = A ++ q.take (i - A.length) := by
      rw [List.take_append_eq_append_take, List.take_all_of_le hge]
    have hcases : removeTrailingLastUpdated (A ++ q) = A ++ q ∨
        removeTrailingLastUpdated (A ++ q) = (A ++ q).take i := by
      unfold removeTrailingLastUpdated
      split
      · left
        rfl
      · rename_i j hj
        have hji : i = j := by
          have hsj := hf.symm.trans hj
          injection hsj
        subst hji
        split
        all_goals first
          | (left; rfl)
          | (split
             · right
               rfl
             · left
               rfl)
    rcases hcases with hcc | hcc
    · exact ⟨q, hcc⟩
    · exact ⟨q.take (i - A.length), by rw [hcc]; exact htake⟩

/-- A live (non-dry) run over a document already in canonical injected form
(markers present, region exactly what this run would write) changes
nothing: the injection returns the document itself, the equality check
fires, and no write happens. -/
theorem runPipeline_canonical_noop (shaOf : Text → Option Text)
    (resolveO : Text → Option Attr) (parsed : List Rec) (p q : Text)
    (attrs0 : List (Text × Attr)) (seen0 : List Text)
    (contrib iso utc : Text) (bt : BuildOut)
    (hbt : buildTable shaOf resolveO (jsSortRecs parsed) attrs0 seen0 iso =
      .ok bt)
    (hS : findFirstIdx MARKER_START (p ++ MARKER_START) = some p.length)
    (hE : findFirstIdx MARKER_END
        (updatedPreamble ++ headerBlock contrib bt.table ++ MARKER_END) =
      some (updatedPreamble ++ headerBlock contrib bt.table).length)
    (hd : ('$' : Char) ∉ headerBlock contrib bt.table) :
    (runPipeline shaOf resolveO parsed
        (some (p ++ MARKER_START ++ updatedPreamble ++
          headerBlock contrib bt.table ++ MARKER_END ++ q))
        attrs0 seen0 contrib iso utc false).docWritten = false ∧
    (runPipeline shaOf resolveO parsed
        (some (p ++ MARKER_START ++ updatedPreamble ++
          headerBlock contrib bt.table ++ MARKER_END ++ q))
        attrs0 seen0 contrib iso utc false).updatedDoc =
      p ++ MARKER_START ++ updatedPreamble ++
        headerBlock contrib bt.table ++ MARKER_END ++ q ∧
    (runPipeline shaOf resolveO parsed
        (some (p ++ MARKER_START ++ updatedPreamble ++
          headerBlock contrib bt.table ++ MARKER_END ++ q))
        attrs0 seen0 contrib iso utc false).finalDisk =
      some (p ++ MARKER_START ++ updatedPreamble ++
        headerBlock contrib bt.table ++ MARKER_END ++ q) ∧
    (runPipeline shaOf resolveO parsed
        (some (p ++ MARKER_START ++ updatedPreamble ++
          headerBlock contrib bt.table ++ MARKER_END ++ q))
        attrs0 seen0 contrib iso utc false).attrsSaved = bt.attrsOut ∧
    (runPipeline shaOf resolveO parsed
        (some (p ++ MARKER_START ++ updatedPreamble ++
          headerBlock contrib bt.table ++ MARKER_END ++ q))
        attrs0 seen0 contrib iso utc false).seenSaved = bt.seenOut := by
  have hcanon := replaceBetweenMarkers_canonical p q
    (headerBlock contrib bt.table) hS hE hd
  simp only [runPipeline]
  rw [hbt]
  simp only [Bool.false_eq_true, if_false]
  have hrd : readReadme (some (p ++ MARKER_START ++ updatedPreamble ++
      headerBlock contrib bt.table ++ MARKER_END ++ q)) =
      p ++ MARKER_START ++ updatedPreamble ++
        headerBlock contrib bt.table ++ MARKER_END ++ q := rfl
  rw [hrd, hcanon]
  simp only [beq_self_eq_true, if_true]
  refine ⟨?_, ?_, ?_, ?_, ?_⟩ <;> trivial

/-- A live run over a document `p ++ START ++ mid ++ END ++ q0` (first
occurrences as shown): the cache saved is the loop's output, and the disk
either keeps the input document (when the injection reproduced it exactly)
or receives the injected document postprocessed by the trailing-timestamp
strip, `trimEnd` and the fresh last-updated line. -/
theorem runPipeline_live_facts (shaOf : Text → Option Text)
    (resolveO : Text → Option Attr) (parsed : List Rec) (p mid q0 : Text)
    (attrs0 : List (Text × Attr)) (seen0 : List Text)
    (contrib iso utc : Text) (bt : BuildOut)
    (hbt : buildTable shaOf resolveO (jsSortRecs parsed) attrs0 seen0 iso =
      .ok bt)
    (hS : findFirstIdx MARKER_START (p ++ MARKER_START) = some p.length)
    (hEmid : findFirstIdx MARKER_END (mid ++ MARKER_END) = some mid.length)
    (hd : ('$' : Char) ∉ headerBlock contrib bt.table) :
    (runPipeline shaOf resolveO parsed
        (some (p ++ MARKER_START ++ mid ++ MARKER_END ++ q0))
        attrs0 seen0 contrib iso utc false).attrsSaved = bt.attrsOut ∧
    (runPipeline shaOf resolveO parsed
        (some (p ++ MARKER_START ++ mid ++ MARKER_END ++ q0))
        attrs0 seen0 contrib iso utc false).seenSaved = bt.seenOut ∧
    ((runPipeline shaOf resolveO parsed
        (some (p ++ MARKER_START ++ mid ++ MARKER_END ++ q0))
        attrs0 seen0 contrib iso utc false).finalDisk =
        some (p ++ MARKER_START ++ mid ++ MARKER_END ++ q0) ∧
      p ++ MARKER_START ++ updatedPreamble ++ headerBlock contrib bt.table ++
        MARKER_END ++ q0 = p ++ MARKER_START ++ mid ++ MARKER_END ++ q0
     ∨ (runPipeline shaOf resolveO parsed
        (some (p ++ MARKER_START ++ mid ++ MARKER_END ++ q0))
        attrs0 seen0 contrib iso utc false).finalDisk =
        some (jsTrimEnd (removeTrailingLastUpdated
            (p ++ MARKER_START ++ updatedPreamble ++
              headerBlock contrib bt.table ++ MARKER_END ++ q0)) ++
          lit "\n\n" ++ lit "\n_Last updated: " ++ utc ++ lit "_\n")) := by
  have hupd := replaceBetweenMarkers_general p mid q0
    (headerBlock contrib bt.table) hS hEmid hd
  simp only [runPipeline]
  rw [hbt]
  simp only [Bool.false_eq_true, if_false]
  have hrd : readReadme (some (p ++ MARKER_START ++ mid ++ MARKER_END ++ q0)) =
      p ++ MARKER_START ++ mid ++ MARKER_END ++ q0 := rfl
  rw [hrd, hupd]
  cases hc : (p ++ MARKER_START ++ updatedPreamble ++
      headerBlock contrib bt.table ++ MARKER_END ++ q0) ==
      (p ++ MARKER_START ++ mid ++ MARKER_END ++ q0) with
  | true =>
    simp only [eq_self_iff_true, if_true]
    exact ⟨by trivial, by trivial, Or.inl ⟨by trivial, eq_of_beq hc⟩⟩
  | false =>
    simp only [Bool.false_eq_true, if_false]
    exact ⟨by trivial, by trivial, Or.inr (by trivial)⟩

/-- Claim C2 (amended): two successive runs over the same input files leave
the document of the first run untouched only under the conditions the
counterexample shows to be necessary — in particular every record's path
must already be in the seen set the FIRST run loads (otherwise the sparkle
markers and the new-submission count change between the runs).  Under
those conditions — distinct record paths, valid creation dates, the marker
pair present in order in the on-disk document with the exhibited first
occurrences, no `$` in the generated block, the end marker that closes the
injected region being the region's first end marker, and every occurrence
of the last-updated sentinel in the injected document lying at or after
the end of the injected region — the second run computes a document
byte-identical to the one the first run left on disk and performs no
write. -/
theorem c2_amended_second_run_noop (shaOf : Text → Option Text)
    (resolveO : Text → Option Attr) (parsed : List Rec)
    (p mid q0 : Text) (attrs0 : List (Text × Attr)) (seen0 : List Text)
    (contrib iso1 utc1 iso2 utc2 : Text)
    (hvalid : ∀ r ∈ parsed, r.created_dt ≠ some none)
    (hnd : (parsed.map Rec.path).Nodup)
    (hseen : ∀ r ∈ parsed, seenHas seen0 r.path = true)
    (hS : findFirstIdx MARKER_START (p ++ MARKER_START) = some p.length)
    (hEmid : findFirstIdx MARKER_END (mid ++ MARKER_END) = some mid.length) :
    ∃ bt1, buildTable shaOf resolveO (jsSortRecs parsed) attrs0 seen0 iso1 =
        .ok bt1 ∧
      (('$' : Char) ∉ headerBlock contrib bt1.table →
       findFirstIdx MARKER_END
           (updatedPreamble ++ headerBlock contrib bt1.table ++ MARKER_END) =
         some (updatedPreamble ++ headerBlock contrib bt1.table).length →
       (∀ n, findFirstIdx lastUpdatedSentinel
           (p ++ MARKER_START ++ updatedPreamble ++
             headerBlock contrib bt1.table ++ MARKER_END ++ q0) = some n →
         (p ++ MARKER_START ++ updatedPreamble ++
           headerBlock contrib bt1.table ++ MARKER_END).length ≤ n) →
       ∀ run1 run2 : RunOut,
         run1 = runPipeline shaOf resolveO parsed
           (some (p ++ MARKER_START ++ mid ++ MARKER_END ++ q0))
           attrs0 seen0 contrib iso1 utc1 false →
         run2 = runPipeline shaOf resolveO parsed run1.finalDisk
           run1.attrsSaved run1.seenSaved contrib iso2 utc2 false →
         run2.docWritten = false ∧
         some run2.updatedDoc = run1.finalDisk ∧
         run2.finalDisk = run1.finalDisk) := by
  have hvs : ∀ r ∈ jsSortRecs parsed, r.created_dt ≠ some none :=
    fun r hr => hvalid r ((mem_jsSortRecs parsed r).1 hr)
  have hss : ∀ r ∈ jsSortRecs parsed, seenHas seen0 r.path = true :=
    fun r hr => hseen r ((mem_jsSortRecs parsed r).1 hr)
  have hnds : ((jsSortRecs parsed).map Rec.path).Nodup :=
    (((jsSortRecs_perm parsed).map Rec.path).nodup_iff).2 hnd
  obtain ⟨bt1, bt2, h1, h2, htbl, hs1, hs2, hn1, hn2⟩ :=
    buildTable_all_seen_stable shaOf resolveO (jsSortRecs parsed) attrs0 seen0
      iso1 iso2 hvs hnds hss
  refine ⟨bt1, h1, ?_⟩
  intro hd hE hsent run1 run2 hrun1 hrun2
  obtain ⟨ha1, hse1, hdisk⟩ := runPipeline_live_facts shaOf resolveO parsed
    p mid q0 attrs0 seen0 contrib iso1 utc1 bt1 h1 hS hEmid hd
  rw [← hrun1] at ha1 hse1 hdisk
  have h2x : buildTable shaOf resolveO (jsSortRecs parsed) run1.attrsSaved
      run1.seenSaved iso2 = .ok bt2 := by
    rw [ha1, hse1]
    exact h2
  have hd2 : ('$' : Char) ∉ headerBlock contrib bt2.table := by
    rw [htbl]
    exact hd
  have hE2 : findFirstIdx MARKER_END
      (updatedPreamble ++ headerBlock contrib bt2.table ++ MARKER_END) =
      some (updatedPreamble ++ headerBlock contrib bt2.table).length := by
    rw [htbl]
    exact hE
  rcases hdisk with ⟨hfd, hcanon_eq⟩ | hfd
  · -- the injection reproduced the input document exactly: the first run
    -- wrote nothing, and the document on disk is itself canonical
    have hnoop := runPipeline_canonical_noop shaOf resolveO parsed p q0
      run1.attrsSaved run1.seenSaved contrib iso2 utc2 bt2 h2x hS hE2 hd2
    rw [htbl] at hnoop
    rw [hcanon_eq] at hnoop
    rw [hfd] at hrun2
    rw [← hrun2] at hnoop
    obtain ⟨hw, hu, hf, _, _⟩ := hnoop
    refine ⟨hw, ?_, ?_⟩
    · rw [hu, hfd]
    · rw [hf, hfd]
  · -- the first run wrote the postprocessed injected document; it is again
    -- canonical with the same region, because the canonical prefix survives
    -- the trailing-timestamp strip and the trim
    obtain ⟨q1, hq1⟩ := removeTrailingLastUpdated_append_ge
      (p ++ MARKER_START ++ updatedPreamble ++ headerBlock contrib bt1.table ++
        MARKER_END) q0 hsent
    have hAlast : (p ++ MARKER_START ++ updatedPreamble ++
        headerBlock contrib bt1.table ++ MARKER_END).getLast? = some '>' := by
      have hne : MARKER_END ≠ ([] : Text) := by decide
      rw [List.getLast?_append_of_ne_nil _ hne]
      decide
    have htrim := jsTrimEnd_append
      (p ++ MARKER_START ++ updatedPreamble ++ headerBlock contrib bt1.table ++
        MARKER_END) q1 '>' hAlast (by decide)
    have hfd2 : run1.finalDisk =
        some ((p ++ MARKER_START ++ updatedPreamble ++
          headerBlock contrib bt1.table ++ MARKER_END) ++
          (jsTrimEnd q1 ++ lit "\n\n" ++ lit "\n_Last updated: " ++ utc1 ++
            lit "_\n")) := by
      rw [hfd, hq1, htrim]
      simp only [List.append_assoc]
    have hnoop := runPipeline_canonical_noop shaOf resolveO parsed p
      (jsTrimEnd q1 ++ lit "\n\n" ++ lit "\n_Last updated: " ++ utc1 ++
        lit "_\n")
      run1.attrsSaved run1.seenSaved contrib iso2 utc2 bt2 h2x hS hE2 hd2
    rw [htbl] at hnoop
    rw [hfd2] at hrun2
    rw [← hrun2] at hnoop
    obtain ⟨hw, hu, hf, _, _⟩ := hnoop
    refine ⟨hw, ?_, ?_⟩
    · rw [hu, hfd2]
    · rw [hf, hfd2]

/-- Witness for C2 (amended) at a concrete already-seen single-record
input. -/
theorem c2_amended_witness :
    ∃ bt1, buildTable noShaOracle noResolveOracle (jsSortRecs [sampleRec])
        [] allSeenSeen (lit "i1") = .ok bt1 ∧
      (('$' : Char) ∉ headerBlock [] bt1.table →
       findFirstIdx MARKER_END
           (updatedPreamble ++ headerBlock [] bt1.table ++ MARKER_END) =
         some (updatedPreamble ++ headerBlock [] bt1.table).length →
       (∀ n, findFirstIdx lastUpdatedSentinel
           (lit "A\n" ++ MARKER_START ++ updatedPreamble ++
             headerBlock [] bt1.table ++ MARKER_END ++ lit "\nB") = some n →
         (lit "A\n" ++ MARKER_START ++ updatedPreamble ++
           headerBlock [] bt1.table ++ MARKER_END).length ≤ n) →
       ∀ run1 run2 : RunOut,
         run1 = runPipeline noShaOracle noResolveOracle [sampleRec]
           (some (lit "A\n" ++ MARKER_START ++ lit "\nold\n" ++ MARKER_END ++
             lit "\nB"))
           [] allSeenSeen [] (lit "i1") (lit "u1") false →
         run2 = runPipeline noShaOracle noResolveOracle [sampleRec]
           run1.finalDisk run1.attrsSaved run1.seenSaved []
           (lit "i2") (lit "u2") false →
         run2.docWritten = false ∧
         some run2.updatedDoc = run1.finalDisk ∧
         run2.finalDisk = run1.finalDisk) :=
  c2_amended_second_run_noop noShaOracle noResolveOracle [sampleRec]
    (lit "A\n") (lit "\nold\n") (lit "\nB") [] allSeenSeen []
    (lit "i1") (lit "u1") (lit "i2") (lit "u2")
    (by decide) (by decide) (by decide) (by decide) (by decide)

/-- Claim C4: a record's row is marked new in a run exactly when its path
is absent from the effective seen information of the loaded cache (the
persisted seen set together with the legacy per-entry `__seen` flags); a
path marked new is in the seen set the run saves; and in any later run
whose starting state's seen set holds the path, the path is not reported
as new again and stays in the seen set — so once marked seen, a path is
never marked new again over any chain of runs. -/
theorem c4_new_marker_iff_unseen_and_never_again (shaOf : Text → Option Text)
    (resolveO : Text → Option Attr) (items : List Rec)
    (attrs0 : List (Text × Attr)) (seen0 : List Text)
    (hvalid : ∀ r ∈ items, r.created_dt ≠ some none)
    (hnd : (items.map Rec.path).Nodup) :
    ∃ stf, processItems shaOf resolveO items
        ⟨attrs0, seen0, [], [], [], []⟩ = .ok stf ∧
      (∀ it ∈ items,
        (it.path ∈ stf.newlySeen ↔ effSeen attrs0 seen0 it.path = false)) ∧
      (∀ it ∈ items, it.path ∈ stf.newlySeen →
        seenHas stf.seen it.path = true) ∧
      (∀ (laterItems : List Rec) (st2 stf2 : BTState) (k : Text),
        seenHas st2.seen k = true →
        processItems shaOf resolveO laterItems st2 = .ok stf2 →
        (k ∉ st2.newlySeen → k ∉ stf2.newlySeen) ∧
          seenHas stf2.seen k = true) := by
  obtain ⟨stf, hok, hseen_eq, hnew_eq, hres_eq, hrows_eq, hcat_eq, hattr, hattro⟩ :=
    processItems_facts shaOf resolveO items ⟨attrs0, seen0, [], [], [], []⟩
      hvalid hnd
  refine ⟨stf, hok, ?_, ?_, ?_⟩
  · intro it hit
    constructor
    · intro hmem
      rw [hnew_eq] at hmem
      rcases List.mem_append.1 hmem with hmem | hmem
      · simp at hmem
      · rw [List.mem_map] at hmem
        obtain ⟨r, hrf, hrp⟩ := hmem
        rw [List.mem_filter] at hrf
        obtain ⟨hrm, hrnew⟩ := hrf
        have hre : r = it := List.inj_on_of_nodup_map hnd hrm hit hrp
        subst hre
        simpa [itemIsNew] using hrnew
    · intro heff
      rw [hnew_eq]
      refine List.mem_append.2 (Or.inr ?_)
      rw [List.mem_map]
      exact ⟨it, List.mem_filter.2 ⟨hit, by simpa [itemIsNew] using heff⟩, rfl⟩
  · intro it hit hmem
    rw [hseen_eq, seenHas_append]
    rw [hnew_eq] at hmem
    rcases List.mem_append.1 hmem with hmem | hmem
    · simp at hmem
    · have hh : seenHas ((items.filter fun it2 =>
          itemIsNew ⟨attrs0, seen0, [], [], [], []⟩ it2).map Rec.path)
          it.path = true := by
        simp only [seenHas, decide_eq_true_eq]
        exact hmem
      rw [hh, Bool.or_true]
  · intro laterItems st2 stf2 k hk hok2
    exact ⟨fun hnot hmem => hnot (processItems_no_new_when_seen shaOf resolveO
        laterItems st2 stf2 hok2 k hk hmem),
      processItems_seen_mono shaOf resolveO laterItems st2 stf2 hok2 k hk⟩

/-- Witness for C4 at a fresh cache and a single valid record. -/
theorem c4_witness :
    ∃ stf, processItems noShaOracle noResolveOracle [sampleRec]
        ⟨[], [], [], [], [], []⟩ = .ok stf ∧
      (∀ it ∈ [sampleRec],
        (it.path ∈ stf.newlySeen ↔ effSeen [] [] it.path = false)) ∧
      (∀ it ∈ [sampleRec], it.path ∈ stf.newlySeen →
        seenHas stf.seen it.path = true) ∧
      (∀ (laterItems : List Rec) (st2 stf2 : BTState) (k : Text),
        seenHas st2.seen k = true →
        processItems noShaOracle noResolveOracle laterItems st2 = .ok stf2 →
        (k ∉ st2.newlySeen → k ∉ stf2.newlySeen) ∧
          seenHas stf2.seen k = true) :=
  c4_new_marker_iff_unseen_and_never_again noShaOracle noResolveOracle
    [sampleRec] [] [] (by decide) (by decide)

/-! ## Resolution-failure caching -/

theorem resolveViaNetwork_login_fail (shaOf : Text → Option Text)
    (resolveO : Text → Option Attr) (key : Text)
    (hfail : (match shaOf key with
      | none => none
      | some s => resolveO s) = (none : Option Attr)) :
    (resolveViaNetwork shaOf resolveO key).login = some (lit "Unknown") := by
  simp only [resolveViaNetwork]
  rw [hfail]
  rfl

theorem stepAttrFull_login (shaOf : Text → Option Text)
    (resolveO : Text → Option Attr) (key : Text) (a0 : Option Attr) (b : Bool) :
    (stepAttrFull shaOf resolveO key a0 b).login =
      (stepAttrOf shaOf resolveO key a0).login := by
  cases b <;> simp [stepAttrFull]

theorem loginTruthy_of_login_unknown (a : Attr)
    (h : a.login = some (lit "Unknown")) : loginTruthy a = true := by
  unfold loginTruthy
  rw [h]
  rfl

/-- Claim C8: the loop runs the network resolution for a record exactly
when the loaded cache holds no entry with a non-empty login for its path;
when the resolution fails (no adding commit, or the lookup returns
nothing), the entry written to the cache carries the placeholder login
"Unknown", which counts as non-empty; and any later run starting from a
cache whose entry for a path has a non-empty login keeps it non-empty and
does not resolve that path again — so a once-failed path is never resolved
over the network again. -/
theorem c8_resolve_iff_no_truthy_login_and_failure_sticks
    (shaOf : Text → Option Text) (resolveO : Text → Option Attr)
    (items : List Rec) (attrs0 : List (Text × Attr)) (seen0 : List Text)
    (hvalid : ∀ r ∈ items, r.created_dt ≠ some none)
    (hnd : (items.map Rec.path).Nodup) :
    ∃ stf, processItems shaOf resolveO items
        ⟨attrs0, seen0, [], [], [], []⟩ = .ok stf ∧
      (∀ it ∈ items,
        (it.path ∈ stf.resolvedKeys ↔
          cachedLoginTruthy attrs0 it.path = false)) ∧
      (∀ it ∈ items, cachedLoginTruthy attrs0 it.path = false →
        (match shaOf it.path with
          | none => none
          | some s => resolveO s) = (none : Option Attr) →
        ∃ a, alistLookup stf.attrs it.path = some a ∧
          a.login = some (lit "Unknown") ∧
          cachedLoginTruthy stf.attrs it.path = true) ∧
      (∀ (laterItems : List Rec) (st2 stf2 : BTState) (k : Text),
        cachedLoginTruthy st2.attrs k = true →
        processItems shaOf resolveO laterItems st2 = .ok stf2 →
        cachedLoginTruthy stf2.attrs k = true ∧
          (k ∈ stf2.resolvedKeys → k ∈ st2.resolvedKeys)) := by
  obtain ⟨stf, hok, hseen_eq, hnew_eq, hres_eq, hrows_eq, hcat_eq, hattr, hattro⟩ :=
    processItems_facts shaOf resolveO items ⟨attrs0, seen0, [], [], [], []⟩
      hvalid hnd
  refine ⟨stf, hok, ?_, ?_, ?_⟩
  · intro it hit
    constructor
    · intro hmem
      rw [hres_eq] at hmem
      rcases List.mem_append.1 hmem with hmem | hmem
      · simp at hmem
      · rw [List.mem_map] at hmem
        obtain ⟨r, hrf, hrp⟩ := hmem
        rw [List.mem_filter] at hrf
        obtain ⟨hrm, hrnt⟩ := hrf
        have hre : r = it := List.inj_on_of_nodup_map hnd hrm hit hrp
        subst hre
        simpa using hrnt
    · intro hct
      rw [hres_eq]
      refine List.mem_append.2 (Or.inr ?_)
      rw [List.mem_map]
      exact ⟨it, List.mem_filter.2 ⟨hit, by simpa using hct⟩, rfl⟩
  · intro it hit hct hfail
    have hstep := hattr it hit
    have hlogin : (stepAttrFull shaOf resolveO it.path
        (alistLookup attrs0 it.path)
        (itemIsNew ⟨attrs0, seen0, [], [], [], []⟩ it)).login =
        some (lit "Unknown") := by
      rw [stepAttrFull_login,
        stepAttrOf_of_not_truthy shaOf resolveO attrs0 it.path hct,
        resolveViaNetwork_login_fail shaOf resolveO it.path hfail]
    refine ⟨stepAttrFull shaOf resolveO it.path (alistLookup attrs0 it.path)
      (itemIsNew ⟨attrs0, seen0, [], [], [], []⟩ it), hstep, hlogin, ?_⟩
    unfold cachedLoginTruthy
    rw [hstep]
    exact loginTruthy_of_login_unknown _ hlogin
  · intro laterItems st2 stf2 k hk hok2
    exact processItems_truthy_preserved shaOf resolveO laterItems st2 stf2
      hok2 k hk

/-- Witness for C8 at a fresh cache, a single record, and oracles on which
every resolution fails. -/
theorem c8_witness :
    ∃ stf, processItems noShaOracle noResolveOracle [sampleRec]
        ⟨[], [], [], [], [], []⟩ = .ok stf ∧
      (∀ it ∈ [sampleRec],
        (it.path ∈ stf.resolvedKeys ↔
          cachedLoginTruthy [] it.path = false)) ∧
      (∀ it ∈ [sampleRec], cachedLoginTruthy [] it.path = false →
        (match noShaOracle it.path with
          | none => none
          | some s => noResolveOracle s) = (none : Option Attr) →
        ∃ a, alistLookup stf.attrs it.path = some a ∧
          a.login = some (lit "Unknown") ∧
          cachedLoginTruthy stf.attrs it.path = true) ∧
      (∀ (laterItems : List Rec) (st2 stf2 : BTState) (k : Text),
        cachedLoginTruthy st2.attrs k = true →
        processItems noShaOracle noResolveOracle laterItems st2 = .ok stf2 →
        cachedLoginTruthy stf2.attrs k = true ∧
          (k ∈ stf2.resolvedKeys → k ∈ st2.resolvedKeys)) :=
  c8_resolve_iff_no_truthy_login_and_failure_sticks noShaOracle
    noResolveOracle [sampleRec] [] [] (by decide) (by decide)

end Hack4Good
